import Mathlib

/-!
# Verification of the SamoAI-Example-CLI terminal rendering core

This development embeds the state-mutating core of `src/terminal-ui.ts`
(and the cost lookup of `llm-cost.ts`) as executable Lean definitions and
proves or refutes the specification's claims about it.

Modelling conventions:
* JavaScript strings are `List Nat` of UTF-16 code units; `str` converts a
  Lean string literal (the sources only use BMP characters, where code
  points and code units coincide).
* The terminal-kit width oracle is an explicit parameter `cw : Nat → Nat`
  giving each code unit's column width; a string's width is the sum.
* Arithmetic that can go negative in JavaScript (layout budgets, scroll
  offsets) is `Int`; counts and indices that stay non-negative are `Nat`.
* The `while` loops of `wrapTextSegments` and of the canvas/agents hard
  wrapping do not terminate on every input, so they are embedded with an
  explicit fuel parameter and return `none` when the fuel runs out; a
  result of `none` for every fuel is a non-terminating run of the source.
* Mutable shared message objects (`entry.ref` aliasing between
  `messageBuffer` and `_streamingMessages`) are modelled with an arena:
  `store` holds every entry ever created, `messageBuffer` and the
  streaming handles hold indices into it.
-/

set_option maxRecDepth 40000

/-- Code units of a Lean string literal, as a JavaScript string model. -/
def str (s : String) : List Nat := s.data.map Char.toNat

/-- Total display width of a string: sum of per-code-unit oracle widths
(`getTextWidth` in the source, with the oracle made explicit). -/
def textWidth (cw : Nat → Nat) : List Nat → Nat
  | [] => 0
  | c :: rest => cw c + textWidth cw rest

theorem textWidth_append (cw : Nat → Nat) (a b : List Nat) :
    textWidth cw (a ++ b) = textWidth cw a + textWidth cw b := by
  induction a with
  | nil => simp [textWidth]
  | cons c rest ih => simp [textWidth, ih]; omega

/-- Split a string at each `\r?\n`, as `message.split(/\r?\n/)` does. -/
def splitLines : List Nat → List (List Nat)
  | [] => [[]]
  | 13 :: 10 :: rest => [] :: splitLines rest
  | 10 :: rest => [] :: splitLines rest
  | c :: rest =>
    match splitLines rest with
    | [] => [[c]]
    | l :: ls => (c :: l) :: ls

/-- A styled text segment (`TextSegment` in the source). -/
structure TextSegment where
  text : List Nat
  isDim : Bool
  deriving DecidableEq

/-- Concatenation of the text of a list of segments. -/
def segsText : List TextSegment → List Nat
  | [] => []
  | s :: rest => s.text ++ segsText rest

theorem segsText_append (a b : List TextSegment) :
    segsText (a ++ b) = segsText a ++ segsText b := by
  induction a with
  | nil => simp [segsText]
  | cons s rest ih => simp [segsText, ih]

/-- Concatenation of the text of a list of wrapped lines. -/
def linesText : List (List TextSegment) → List Nat
  | [] => []
  | l :: rest => segsText l ++ linesText rest

theorem linesText_append (a b : List (List TextSegment)) :
    linesText (a ++ b) = linesText a ++ linesText b := by
  induction a with
  | nil => simp [linesText]
  | cons l rest ih => simp [linesText, ih]

/-- Loop of `parseMessageSegments`: walk the line, toggling dim mode at
each `*` (code unit 42); the pending non-asterisk run is carried reversed
in `chunk` and flushed (when non-empty) before each `*` and at the end. -/
def parseLoop : List Nat → Bool → List Nat → List TextSegment
  | [], dim, chunk =>
    if chunk = [] then [] else [⟨chunk.reverse, dim⟩]
  | c :: rest, dim, chunk =>
    if c = 42 then
      (if chunk = [] then [] else [⟨chunk.reverse, dim⟩]) ++
        ⟨[42], true⟩ :: parseLoop rest (!dim) []
    else
      parseLoop rest dim (c :: chunk)

/-- Parse one line of raw text into styled segments
(`parseMessageSegments` in the source): each `*` toggles between plain and
action (dim) mode and is itself emitted as a dim one-character segment. -/
def parseMessageSegments (message : List Nat) : List TextSegment :=
  parseLoop message false []

theorem parseLoop_text (message : List Nat) :
    ∀ dim chunk, segsText (parseLoop message dim chunk) =
      chunk.reverse ++ message := by
  induction message with
  | nil =>
    intro dim chunk
    by_cases h : chunk = [] <;> simp [parseLoop, h, segsText]
  | cons c rest ih =>
    intro dim chunk
    by_cases h : c = 42
    · subst h
      by_cases hc : chunk = [] <;>
        simp [parseLoop, hc, segsText, segsText_append, ih]
    · simp [parseLoop, h, ih]

/-- C5. For every input string `s`, concatenating the text fields of the
segments returned by `parseMessageSegments s`, in order, yields `s`
exactly: the markup parser is lossless, no character (including the `*`
delimiters) is dropped or duplicated. -/
theorem parse_lossless (message : List Nat) :
    segsText (parseMessageSegments message) = message := by
  simpa using parseLoop_text message false []

example : parseMessageSegments (str "a*b*c") =
    [⟨str "a", false⟩, ⟨str "*", true⟩, ⟨str "b", true⟩,
     ⟨str "*", true⟩, ⟨str "c", false⟩] := by decide

example : parseMessageSegments (str "") = [] := by decide

/-- Character-by-character loop of `truncateTextToWidth`: accumulate code
units while `currentWidth + charWidth` stays within `maxWidth`; on the
first overflow return the prefix taken so far and the rest untouched. -/
def truncateGo (cw : Nat → Nat) (maxWidth : Int) : List Nat → Nat → List Nat × List Nat
  | [], _ => ([], [])
  | c :: rest, currentWidth =>
    if (currentWidth + cw c : Int) > maxWidth then ([], c :: rest)
    else
      let p := truncateGo cw maxWidth rest (currentWidth + cw c)
      (c :: p.1, p.2)

/-- Truncate `text` to fit within `maxWidth` display columns, returning
the fitting prefix and the remainder (`truncateTextToWidth` in the
source). -/
def truncateTextToWidth (cw : Nat → Nat) (text : List Nat) (maxWidth : Int) :
    List Nat × List Nat :=
  if (textWidth cw text : Int) ≤ maxWidth then (text, [])
  else truncateGo cw maxWidth text 0

theorem truncateGo_append (cw : Nat → Nat) (maxWidth : Int) (text : List Nat) :
    ∀ w, (truncateGo cw maxWidth text w).1 ++ (truncateGo cw maxWidth text w).2 = text := by
  induction text with
  | nil => intro w; simp [truncateGo]
  | cons c rest ih =>
    intro w
    by_cases h : (w + cw c : Int) > maxWidth <;> simp [truncateGo, h, ih]

theorem truncateGo_width (cw : Nat → Nat) (maxWidth : Int) (text : List Nat) :
    ∀ w : Nat, (w : Int) ≤ maxWidth →
      (w + textWidth cw (truncateGo cw maxWidth text w).1 : Int) ≤ maxWidth := by
  induction text with
  | nil => intro w hw; simpa [truncateGo, textWidth] using hw
  | cons c rest ih =>
    intro w hw
    by_cases h : (w + cw c : Int) > maxWidth
    · simpa [truncateGo, h, textWidth] using hw
    · have := ih (w + cw c) (by omega)
      simp only [truncateGo, if_neg h, textWidth]
      push_cast at this ⊢
      omega

theorem truncateGo_progress (cw : Nat → Nat) (maxWidth : Int) (c : Nat) (rest : List Nat)
    (h : (cw c : Int) ≤ maxWidth) :
    (truncateGo cw maxWidth (c :: rest) 0).1 ≠ [] := by
  unfold truncateGo
  split
  · next hlt => exfalso; push_cast at hlt; omega
  · simp

theorem truncateTextToWidth_append (cw : Nat → Nat) (text : List Nat) (maxWidth : Int) :
    (truncateTextToWidth cw text maxWidth).1 ++ (truncateTextToWidth cw text maxWidth).2 = text := by
  unfold truncateTextToWidth
  by_cases h : (textWidth cw text : Int) ≤ maxWidth
  · simp [h]
  · simpa [h] using truncateGo_append cw maxWidth text 0

theorem truncateTextToWidth_width (cw : Nat → Nat) (text : List Nat) (maxWidth : Int)
    (hm : 0 ≤ maxWidth) :
    (textWidth cw (truncateTextToWidth cw text maxWidth).1 : Int) ≤ maxWidth := by
  unfold truncateTextToWidth
  by_cases h : (textWidth cw text : Int) ≤ maxWidth
  · simp [h]
  · have := truncateGo_width cw maxWidth text 0 (by omega)
    simp only [if_neg h]
    push_cast at this ⊢
    omega

/-- Width of one wrapped line: total width of its segments. -/
def lineWidth (cw : Nat → Nat) : List TextSegment → Nat
  | [] => 0
  | s :: rest => textWidth cw s.text + lineWidth cw rest

theorem lineWidth_append (cw : Nat → Nat) (a b : List TextSegment) :
    lineWidth cw (a ++ b) = lineWidth cw a + lineWidth cw b := by
  induction a with
  | nil => simp [lineWidth]
  | cons s rest ih => simp [lineWidth, ih]; omega

/-- Inner `while (remainingText.length > 0)` loop of `wrapTextSegments`,
for one segment of style `isDim`, with explicit fuel. State: the text not
yet placed, the completed lines so far, the line being filled and its
running width. Each iteration either places all remaining text on the
current line, or (when it does not fit) moves the widest fitting prefix
(if any, and only if any budget is left) onto the current line, closes
that line and continues on a fresh one. Fuel `0` with text still left
models the JavaScript loop running forever. -/
def wrapSegLoop (cw : Nat → Nat) (maxWidth : Int) (isDim : Bool) :
    Nat → List Nat → List (List TextSegment) → List TextSegment → Nat →
    Option (List (List TextSegment) × List TextSegment × Nat)
  | fuel, remaining, lines, currentLine, currentLineWidth =>
    match remaining with
    | [] => some (lines, currentLine, currentLineWidth)
    | c :: rest =>
      match fuel with
      | 0 => none
      | fuel + 1 =>
        let remainingText := c :: rest
        let availableWidth : Int := maxWidth - currentLineWidth
        let tw := textWidth cw remainingText
        if (tw : Int) ≤ availableWidth then
          some (lines, currentLine ++ [⟨remainingText, isDim⟩], currentLineWidth + tw)
        else
          let p :=
            if 0 < availableWidth then truncateTextToWidth cw remainingText availableWidth
            else ([], remainingText)
          let newLine := if p.1 = [] then currentLine else currentLine ++ [⟨p.1, isDim⟩]
          wrapSegLoop cw maxWidth isDim fuel p.2 (lines ++ [newLine]) [] 0

/-- Outer `for (const segment of segments)` loop of `wrapTextSegments`. -/
def wrapSegsGo (cw : Nat → Nat) (maxWidth : Int) (fuel : Nat) :
    List TextSegment → List (List TextSegment) → List TextSegment → Nat →
    Option (List (List TextSegment) × List TextSegment × Nat)
  | [], lines, currentLine, currentLineWidth =>
    some (lines, currentLine, currentLineWidth)
  | seg :: rest, lines, currentLine, currentLineWidth =>
    match wrapSegLoop cw maxWidth seg.isDim fuel seg.text lines currentLine currentLineWidth with
    | none => none
    | some (l, c, w) => wrapSegsGo cw maxWidth fuel rest l c w

/-- Wrap styled segments across lines of display width at most `maxWidth`
(`wrapTextSegments` in the source), with explicit fuel for its inner
while loops. After the loops the partially filled last line is appended
when non-empty, and an empty output becomes one empty line. -/
def wrapTextSegments (cw : Nat → Nat) (segments : List TextSegment) (maxWidth : Int)
    (fuel : Nat) : Option (List (List TextSegment)) :=
  match wrapSegsGo cw maxWidth fuel segments [] [] 0 with
  | none => none
  | some (lines, currentLine, _) =>
    let lines := if currentLine = [] then lines else lines ++ [currentLine]
    some (if lines = [] then [[]] else lines)

example : wrapTextSegments (fun _ => 1) [⟨str "abcde", false⟩] 2 20 =
    some [[⟨str "ab", false⟩], [⟨str "cd", false⟩], [⟨str "e", false⟩]] := by decide

example : wrapTextSegments (fun _ => 1) [] 5 20 = some [[]] := by decide


theorem wrapSegLoop_nil (cw : Nat → Nat) (mw : Int) (dim : Bool) (m : Nat)
    (lines : List (List TextSegment)) (cl : List TextSegment) (clw : Nat) :
    wrapSegLoop cw mw dim m [] lines cl clw = some (lines, cl, clw) := by
  cases m <;> rfl

theorem wrapSegLoop_cons (cw : Nat → Nat) (mw : Int) (dim : Bool) (m c : Nat)
    (rest : List Nat) (lines : List (List TextSegment)) (cl : List TextSegment) (clw : Nat) :
    wrapSegLoop cw mw dim (m + 1) (c :: rest) lines cl clw =
      if (textWidth cw (c :: rest) : Int) ≤ mw - clw then
        some (lines, cl ++ [⟨c :: rest, dim⟩], clw + textWidth cw (c :: rest))
      else
        let p := if 0 < mw - (clw : Int) then truncateTextToWidth cw (c :: rest) (mw - clw)
                 else ([], c :: rest)
        wrapSegLoop cw mw dim m p.2
          (lines ++ [if p.1 = [] then cl else cl ++ [⟨p.1, dim⟩]]) [] 0 := rfl

theorem wrapSegLoop_step_fit (cw : Nat → Nat) (mw : Int) (dim : Bool) (m c : Nat)
    (rest : List Nat) (lines : List (List TextSegment)) (cl : List TextSegment) (clw : Nat)
    (hfit : (textWidth cw (c :: rest) : Int) ≤ mw - clw) :
    wrapSegLoop cw mw dim (m + 1) (c :: rest) lines cl clw =
      some (lines, cl ++ [⟨c :: rest, dim⟩], clw + textWidth cw (c :: rest)) := by
  rw [wrapSegLoop_cons]
  simp only [if_pos hfit]

theorem wrapSegLoop_step_split (cw : Nat → Nat) (mw : Int) (dim : Bool) (m c : Nat)
    (rest : List Nat) (lines : List (List TextSegment)) (cl : List TextSegment) (clw : Nat)
    (hfit : ¬ (textWidth cw (c :: rest) : Int) ≤ mw - clw)
    (hpos : 0 < mw - (clw : Int)) :
    wrapSegLoop cw mw dim (m + 1) (c :: rest) lines cl clw =
      wrapSegLoop cw mw dim m (truncateTextToWidth cw (c :: rest) (mw - clw)).2
        (lines ++ [if (truncateTextToWidth cw (c :: rest) (mw - clw)).1 = [] then cl
                   else cl ++ [⟨(truncateTextToWidth cw (c :: rest) (mw - clw)).1, dim⟩]])
        [] 0 := by
  rw [wrapSegLoop_cons]
  simp only [if_neg hfit, if_pos hpos]

theorem wrapSegLoop_step_nobudget (cw : Nat → Nat) (mw : Int) (dim : Bool) (m c : Nat)
    (rest : List Nat) (lines : List (List TextSegment)) (cl : List TextSegment) (clw : Nat)
    (hfit : ¬ (textWidth cw (c :: rest) : Int) ≤ mw - clw)
    (hpos : ¬ 0 < mw - (clw : Int)) :
    wrapSegLoop cw mw dim (m + 1) (c :: rest) lines cl clw =
      wrapSegLoop cw mw dim m (c :: rest) (lines ++ [cl]) [] 0 := by
  rw [wrapSegLoop_cons]
  simp only [if_neg hfit, if_neg hpos]
  simp

theorem wrapSegLoop_spec (cw : Nat → Nat) (maxWidth : Int) (dim : Bool) :
    ∀ m : Nat, ∀ (remaining : List Nat) (lines : List (List TextSegment))
      (cl : List TextSegment) (clw : Nat),
      1 ≤ maxWidth →
      (∀ c ∈ remaining, (cw c : Int) ≤ maxWidth) →
      lineWidth cw cl = clw →
      (clw : Int) ≤ maxWidth →
      2 * remaining.length + (if clw = 0 then 0 else 1) ≤ m →
      ∃ lines' cl' clw',
        wrapSegLoop cw maxWidth dim m remaining lines cl clw = some (lines', cl', clw') ∧
        lineWidth cw cl' = clw' ∧
        (clw' : Int) ≤ maxWidth ∧
        (∀ l ∈ lines', l ∈ lines ∨ (lineWidth cw l : Int) ≤ maxWidth) ∧
        linesText lines' ++ segsText cl' = linesText lines ++ segsText cl ++ remaining := by
  intro m
  induction m using Nat.strong_induction_on with
  | _ m ih =>
    intro remaining lines cl clw hmw hchars hclw hclwb hm
    match remaining with
    | [] =>
      exact ⟨lines, cl, clw, wrapSegLoop_nil .., hclw, hclwb,
        fun l hl => Or.inl hl, by simp [segsText]⟩
    | c :: rest =>
      match m with
      | 0 => simp at hm
      | m + 1 =>
        have hmlt : m < m + 1 := Nat.lt_succ_self m
        by_cases hfit : (textWidth cw (c :: rest) : Int) ≤ maxWidth - clw
        · rw [wrapSegLoop_step_fit cw maxWidth dim m c rest lines cl clw hfit]
          refine ⟨lines, cl ++ [⟨c :: rest, dim⟩], clw + textWidth cw (c :: rest),
            rfl, ?_, ?_, fun l hl => Or.inl hl, ?_⟩
          · simp [lineWidth_append, lineWidth, hclw]
          · push_cast; omega
          · simp [segsText_append, segsText]
        · by_cases hpos : 0 < maxWidth - (clw : Int)
          · rw [wrapSegLoop_step_split cw maxWidth dim m c rest lines cl clw hfit hpos]
            set p := truncateTextToWidth cw (c :: rest) (maxWidth - clw) with hp
            have happ : p.1 ++ p.2 = c :: rest := truncateTextToWidth_append ..
            have hwid : (textWidth cw p.1 : Int) ≤ maxWidth - clw :=
              truncateTextToWidth_width cw (c :: rest) (maxWidth - clw) (by omega)
            by_cases hemp : p.1 = []
            · -- no prefix fit: the first-character bound forces clw ≠ 0
              rw [if_pos hemp]
              have hrem : p.2 = c :: rest := by rw [hemp] at happ; simpa using happ
              have hclwne : clw ≠ 0 := by
                intro h0
                apply truncateGo_progress cw (maxWidth - clw) c rest
                  (le_trans (hchars c (by simp)) (by rw [h0]; push_cast; omega))
                have hpg : p = truncateGo cw (maxWidth - clw) (c :: rest) 0 := by
                  rw [hp]
                  unfold truncateTextToWidth
                  rw [if_neg (by omega)]
                rw [← hpg, hemp]
              rw [if_neg hclwne] at hm
              obtain ⟨lines', cl', clw', heq, h1, h2, h3, h4⟩ :=
                ih m hmlt p.2 (lines ++ [cl]) [] 0 hmw
                  (by rw [hrem]; exact hchars) (by simp [lineWidth]) (by push_cast; omega)
                  (by rw [hrem]; simp at hm ⊢; omega)
              refine ⟨lines', cl', clw', heq, h1, h2, ?_, ?_⟩
              · intro l hl
                rcases h3 l hl with h | h
                · rcases List.mem_append.1 h with h | h
                  · exact Or.inl h
                  · simp at h; subst h; right; omega
                · exact Or.inr h
              · rw [h4, hrem, linesText_append]
                simp [linesText, segsText]
            · -- a non-empty prefix fits: strict progress
              rw [if_neg hemp]
              have hlen : p.2.length ≤ rest.length := by
                have hl := congrArg List.length happ
                simp [List.length_append] at hl
                have h1 : 0 < p.1.length := List.length_pos.2 hemp
                omega
              have hcharsp2 : ∀ ch ∈ p.2, (cw ch : Int) ≤ maxWidth := by
                intro ch hch
                exact hchars ch (by rw [← happ]; exact List.mem_append.2 (Or.inr hch))
              obtain ⟨lines', cl', clw', heq, h1, h2, h3, h4⟩ :=
                ih m hmlt p.2 (lines ++ [cl ++ [⟨p.1, dim⟩]]) [] 0 hmw
                  hcharsp2 (by simp [lineWidth]) (by push_cast; omega)
                  (by simp at hm ⊢; omega)
              refine ⟨lines', cl', clw', heq, h1, h2, ?_, ?_⟩
              · intro l hl
                rcases h3 l hl with h | h
                · rcases List.mem_append.1 h with h | h
                  · exact Or.inl h
                  · simp at h; subst h; right
                    rw [lineWidth_append]
                    simp [lineWidth]
                    omega
                · exact Or.inr h
              · rw [h4, linesText_append]
                conv_rhs => rw [← happ]
                simp [linesText, segsText, segsText_append]
          · -- no budget at all on the current line: close it and retry
            rw [wrapSegLoop_step_nobudget cw maxWidth dim m c rest lines cl clw hfit hpos]
            have hclwne : clw ≠ 0 := by
              intro h0; rw [h0] at hpos; push_cast at hpos; omega
            rw [if_neg hclwne] at hm
            obtain ⟨lines', cl', clw', heq, h1, h2, h3, h4⟩ :=
              ih m hmlt (c :: rest) (lines ++ [cl]) [] 0 hmw
                hchars (by simp [lineWidth]) (by push_cast; omega)
                (by simp at hm ⊢; omega)
            refine ⟨lines', cl', clw', heq, h1, h2, ?_, ?_⟩
            · intro l hl
              rcases h3 l hl with h | h
              · rcases List.mem_append.1 h with h | h
                · exact Or.inl h
                · simp at h; subst h; right; omega
              · exact Or.inr h
            · rw [h4, linesText_append]
              simp [linesText, segsText]

theorem wrapSegsGo_spec (cw : Nat → Nat) (maxWidth : Int) (m : Nat) :
    ∀ (segs : List TextSegment) (lines : List (List TextSegment))
      (cl : List TextSegment) (clw : Nat),
      1 ≤ maxWidth →
      (∀ seg ∈ segs, ∀ c ∈ seg.text, (cw c : Int) ≤ maxWidth) →
      (∀ seg ∈ segs, 2 * seg.text.length + 1 ≤ m) →
      lineWidth cw cl = clw →
      (clw : Int) ≤ maxWidth →
      ∃ lines' cl' clw',
        wrapSegsGo cw maxWidth m segs lines cl clw = some (lines', cl', clw') ∧
        lineWidth cw cl' = clw' ∧
        (clw' : Int) ≤ maxWidth ∧
        (∀ l ∈ lines', l ∈ lines ∨ (lineWidth cw l : Int) ≤ maxWidth) ∧
        linesText lines' ++ segsText cl' = linesText lines ++ segsText cl ++ segsText segs := by
  intro segs
  induction segs with
  | nil =>
    intro lines cl clw hmw _ _ hclw hclwb
    exact ⟨lines, cl, clw, rfl, hclw, hclwb, fun l hl => Or.inl hl, by simp [segsText]⟩
  | cons seg rest ih =>
    intro lines cl clw hmw hchars hfuel hclw hclwb
    obtain ⟨lines1, cl1, clw1, heq1, h11, h12, h13, h14⟩ :=
      wrapSegLoop_spec cw maxWidth seg.isDim m seg.text lines cl clw hmw
        (fun c hc => hchars seg (by simp) c hc) hclw hclwb
        (by have := hfuel seg (by simp); split <;> omega)
    obtain ⟨lines', cl', clw', heq2, h21, h22, h23, h24⟩ :=
      ih lines1 cl1 clw1 hmw
        (fun s hs c hc => hchars s (by simp [hs]) c hc)
        (fun s hs => hfuel s (by simp [hs])) h11 h12
    refine ⟨lines', cl', clw', ?_, h21, h22, ?_, ?_⟩
    · unfold wrapSegsGo
      rw [heq1]
      exact heq2
    · intro l hl
      rcases h23 l hl with h | h
      · exact (h13 l h).imp_left id
      · exact Or.inr h
    · rw [h24, h14, segsText]
      simp [List.append_assoc]

/-- Total code-unit count of a segment list, used as sufficient fuel. -/
def segsLen : List TextSegment → Nat
  | [] => 0
  | s :: rest => s.text.length + segsLen rest

theorem segsLen_bound (segs : List TextSegment) :
    ∀ seg ∈ segs, seg.text.length ≤ segsLen segs := by
  induction segs with
  | nil => intro seg hs; simp at hs
  | cons s rest ih =>
    intro seg hs
    rcases List.mem_cons.1 hs with h | h
    · subst h; simp [segsLen]
    · have := ih seg h
      simp [segsLen]
      omega

/-- C2 (amended). For every segment list and width `w ≥ 1` such that every
single character of the input has oracle width at most `w`,
`wrapTextSegments` terminates (explicit fuel `2 * segsLen segs + 1`
suffices), every returned line has total Width-Oracle width `≤ w`, and
concatenating the text of all returned lines reproduces the concatenated
input text exactly. The per-character hypothesis is necessary: without it
the wrapping loop never terminates (see the counterexample). -/
theorem wrap_sound (cw : Nat → Nat) (segs : List TextSegment) (w : Int)
    (hw : 1 ≤ w)
    (hchars : ∀ seg ∈ segs, ∀ c ∈ seg.text, (cw c : Int) ≤ w) :
    ∃ lines,
      wrapTextSegments cw segs w (2 * segsLen segs + 1) = some lines ∧
      (∀ l ∈ lines, (lineWidth cw l : Int) ≤ w) ∧
      linesText lines = segsText segs := by
  have hfuel : ∀ seg ∈ segs, 2 * seg.text.length + 1 ≤ 2 * segsLen segs + 1 := by
    intro seg hs
    have := segsLen_bound segs seg hs
    omega
  obtain ⟨lines', cl', clw', heq, h1, h2, h3, h4⟩ :=
    wrapSegsGo_spec cw w (2 * segsLen segs + 1) segs [] [] 0 hw hchars hfuel
      (by simp [lineWidth]) (by omega)
  unfold wrapTextSegments
  rw [heq]
  by_cases hcl : cl' = []
  · subst hcl
    by_cases hlines : lines' = []
    · subst hlines
      refine ⟨[[]], by simp, ?_, ?_⟩
      · intro l hl
        simp at hl
        subst hl
        simp [lineWidth]
        omega
      · simp [linesText, segsText] at h4 ⊢
        exact h4
    · refine ⟨lines', by simp [hlines], ?_, ?_⟩
      · intro l hl
        rcases h3 l hl with h | h
        · simp at h
        · exact h
      · simpa [linesText, segsText] using h4
  · have hne : lines' ++ [cl'] ≠ [] := by simp
    refine ⟨lines' ++ [cl'], by simp [hcl, hne], ?_, ?_⟩
    · intro l hl
      rcases List.mem_append.1 hl with h | h
      · rcases h3 l h with h | h
        · simp at h
        · exact h
      · simp at h
        subst h
        omega
    · rw [linesText_append]
      simpa [linesText, segsText] using h4

/-- Witness oracle with a double-width CJK character (as terminal-kit's
stringWidth reports for U+4E00 and above). -/
def cwCJK : Nat → Nat := fun c => if 19968 ≤ c then 2 else 1

theorem wrapCJK_loop_none : ∀ fuel lines cl,
    wrapSegLoop cwCJK 1 false fuel [19968] lines cl 0 = none := by
  intro fuel
  induction fuel with
  | zero => intro lines cl; rfl
  | succ n ih => intro lines cl; exact ih (lines ++ [cl]) []

/-- C2, as stated, is false: with the real oracle width 2 for a CJK
character and width budget `w = 1` (which satisfies `w ≥ 1`), the inner
while loop of `wrapTextSegments` makes no progress — `truncateTextToWidth`
returns an empty prefix and the unchanged remainder forever — so the
function does not terminate: the fuel-indexed embedding returns `none` for
every fuel. -/
theorem wrap_claim_counterexample :
    ¬ ∃ fuel lines, wrapTextSegments cwCJK [⟨[19968], false⟩] 1 fuel = some lines := by
  rintro ⟨fuel, lines, h⟩
  have h0 := wrapCJK_loop_none fuel [] []
  unfold wrapTextSegments wrapSegsGo at h
  rw [h0] at h
  exact Option.noConfusion h

/-- Witness for C2 (amended) at a concrete input: two width-1 characters
wrapped at width 1 terminate with every line within budget and the text
preserved. -/
theorem wrap_sound_witness :
    ∃ lines,
      wrapTextSegments (fun _ => 1) [⟨str "ab", false⟩] 1
        (2 * segsLen [⟨str "ab", false⟩] + 1) = some lines ∧
      (∀ l ∈ lines, (lineWidth (fun _ => 1) l : Int) ≤ 1) ∧
      linesText lines = segsText [⟨str "ab", false⟩] :=
  wrap_sound (fun _ => 1) [⟨str "ab", false⟩] 1 (by omega) (by decide)

/-- A transcript entry of the bounded message buffer (an element of
`messageBuffer` in the source; a missing `isAction` field is `false`). -/
structure MsgEntry where
  name : List Nat
  message : List Nat
  isAction : Bool
  deriving DecidableEq

/-- Sum of wrapped-line counts over the newline-split sub-lines of a
message, each parsed and wrapped at `mw` (first counting pass of
`redrawMessageArea`). -/
def wrapCountGo (cw : Nat → Nat) (mw : Int) (fuel : Nat) : List (List Nat) → Option Nat
  | [] => some 0
  | line :: rest =>
    match wrapTextSegments cw (parseMessageSegments line) mw fuel with
    | none => none
    | some ls =>
      match wrapCountGo cw mw fuel rest with
      | none => none
      | some n => some (ls.length + n)

/-- Number of terminal rows one entry occupies in the transcript layout:
`1` for an action entry, otherwise the wrapped-line count of its message
at width `term.width - (nameWidth + 2) - 1`, with a minimum of `1`
(per-entry counting of `redrawMessageArea`). -/
def msgLineCount (cw : Nat → Nat) (tw fuel : Nat) (e : MsgEntry) : Option Nat :=
  if e.isAction then some 1
  else
    let nameWidth := textWidth cw e.name + 2
    let maxTextWidth : Int := (tw : Int) - nameWidth - 1
    match wrapCountGo cw maxTextWidth fuel (splitLines e.message) with
    | none => none
    | some n => some (max 1 n)

/-- Line counts of a list of entries (the `messageLineCounts` array). -/
def msgLineCounts (cw : Nat → Nat) (tw fuel : Nat) : List MsgEntry → Option (List Nat)
  | [] => some []
  | e :: rest =>
    match msgLineCount cw tw fuel e, msgLineCounts cw tw fuel rest with
    | some c, some cs => some (c :: cs)
    | _, _ => none

/-- Backward trimming loop of `redrawMessageArea` on the reversed count
list: how many trailing entries fit in `avail` rows, taking whole entries
from the most recent end while they fit. -/
def suffixFit (avail : Nat) : List Nat → Nat
  | [] => 0
  | c :: rest => if c ≤ avail then 1 + suffixFit (avail - c) rest else 0

/-- The entries the transcript layout actually draws
(`redrawMessageArea`, lines 716-771 of the source, with the mission
header absent so that `avail` rows are free): take at most the last
`avail` entries, count their wrapped lines, and if the total exceeds
`avail` drop whole entries from the front until the remaining suffix
fits. -/
def visibleMessages (cw : Nat → Nat) (tw avail : Nat) (buffer : List MsgEntry)
    (fuel : Nat) : Option (List MsgEntry) :=
  match msgLineCounts cw tw fuel (buffer.drop (buffer.length - avail)) with
  | none => none
  | some counts =>
    if counts.sum > avail then
      some ((buffer.drop (buffer.length - avail)).drop
        (counts.length - suffixFit avail counts.reverse))
    else some (buffer.drop (buffer.length - avail))

theorem msgLineCounts_length (cw : Nat → Nat) (tw fuel : Nat) :
    ∀ (xs : List MsgEntry) (cs : List Nat),
      msgLineCounts cw tw fuel xs = some cs → cs.length = xs.length := by
  intro xs
  induction xs with
  | nil => intro cs h; simp [msgLineCounts] at h; simp [← h]
  | cons e rest ih =>
    intro cs h
    unfold msgLineCounts at h
    match h1 : msgLineCount cw tw fuel e, h2 : msgLineCounts cw tw fuel rest with
    | some c, some cs0 =>
      rw [h1, h2] at h
      simp at h
      subst h
      simp [ih cs0 h2]
    | some c, none => rw [h1, h2] at h; simp at h
    | none, _ => rw [h1] at h; simp at h

theorem msgLineCounts_append (cw : Nat → Nat) (tw fuel : Nat) (xs ys : List MsgEntry) :
    msgLineCounts cw tw fuel (xs ++ ys) =
      match msgLineCounts cw tw fuel xs, msgLineCounts cw tw fuel ys with
      | some a, some b => some (a ++ b)
      | _, _ => none := by
  induction xs with
  | nil =>
    simp only [List.nil_append, msgLineCounts]
    cases msgLineCounts cw tw fuel ys <;> simp
  | cons x rest ih =>
    simp only [List.cons_append, msgLineCounts, List.append_eq]
    rw [ih]
    rcases msgLineCount cw tw fuel x with _ | c <;>
      rcases msgLineCounts cw tw fuel rest with _ | a <;>
      rcases msgLineCounts cw tw fuel ys with _ | b <;> simp

theorem drop_snoc {α : Type} (xs : List α) (e : α) (n : Nat) (h : n ≤ xs.length) :
    (xs ++ [e]).drop n = xs.drop n ++ [e] := by
  induction xs generalizing n with
  | nil => simp at h; simp [h]
  | cons x rest ih =>
    match n with
    | 0 => simp
    | n + 1 =>
      simp at h
      simpa using ih n h

/-- C1 (amended). When the single most recent entry's wrapped line count
alone exceeds `availableRows > 0`, the transcript layout's selection is
EMPTY: the backward fitting loop stops immediately and the subsequent
splice removes every candidate entry, the most recent one included, so
that entry is silently hidden rather than clipped. -/
theorem overflow_entry_dropped (cw : Nat → Nat) (tw avail fuel : Nat)
    (init : List MsgEntry) (e : MsgEntry) (sel : List MsgEntry) (c : Nat)
    (havail : 0 < avail)
    (hcount : msgLineCount cw tw fuel e = some c)
    (hover : avail < c)
    (hsel : visibleMessages cw tw avail (init ++ [e]) fuel = some sel) :
    sel = [] := by
  unfold visibleMessages at hsel
  have hlen : (init ++ [e]).length - avail ≤ init.length := by
    simp [List.length_append]
    omega
  rw [drop_snoc init e _ hlen] at hsel
  set shown := init.drop ((init ++ [e]).length - avail) with hshown
  match hcounts : msgLineCounts cw tw fuel (shown ++ [e]) with
  | none => rw [hcounts] at hsel; simp at hsel
  | some counts =>
    rw [hcounts] at hsel
    replace hsel : (if counts.sum > avail then
        some (List.drop (counts.length - suffixFit avail counts.reverse) (shown ++ [e]))
      else some (shown ++ [e])) = some sel := hsel
    have hlen2 : counts.length = (shown ++ [e]).length :=
      msgLineCounts_length cw tw fuel (shown ++ [e]) counts hcounts
    rw [msgLineCounts_append] at hcounts
    have he : msgLineCounts cw tw fuel [e] = some [c] := by
      simp [msgLineCounts, hcount]
    rw [he] at hcounts
    obtain ⟨cs0, h0, hcs⟩ : ∃ cs0, msgLineCounts cw tw fuel shown = some cs0 ∧
        counts = cs0 ++ [c] := by
      match h0 : msgLineCounts cw tw fuel shown with
      | none => rw [h0] at hcounts; simp at hcounts
      | some cs0 =>
        rw [h0] at hcounts
        simp at hcounts
        exact ⟨cs0, rfl, hcounts.symm⟩
    have hsum : counts.sum > avail := by
      rw [hcs]
      simp
      omega
    rw [if_pos hsum] at hsel
    have hfit0 : suffixFit avail counts.reverse = 0 := by
      rw [hcs]
      simp [suffixFit]
      omega
    rw [hfit0] at hsel
    rw [Nat.sub_zero, hlen2, List.drop_length] at hsel
    simpa using hsel.symm

/-- Width oracle giving every code unit width 1. -/
def cwOne : Nat → Nat := fun _ => 1

/-- Concrete transcript entry whose 20-character body wraps to 4 lines at
a 90-column budget of 6 (terminal width 10, name width 1). -/
def entryLong : MsgEntry := ⟨str "A", List.replicate 20 97, false⟩

/-- C1, as stated, is false: with terminal width 10 and one available
row, the only (hence most recent) entry needs 4 wrapped lines, and the
selection returned by the layout is empty — the entry is NOT included and
is silently hidden, not clipped at the bottom. -/
theorem clip_claim_counterexample :
    msgLineCount cwOne 10 50 entryLong = some 4 ∧
    visibleMessages cwOne 10 1 [entryLong] 50 = some [] ∧
    entryLong ∉ ([] : List MsgEntry) := ⟨by decide, by decide, by decide⟩

/-- Witness for C1 (amended): the general theorem applied at the concrete
overflowing entry yields the empty selection. -/
theorem overflow_entry_dropped_witness :
    ∃ sel, visibleMessages cwOne 10 1 ([] ++ [entryLong]) 50 = some sel ∧ sel = [] := by
  refine ⟨[], by decide, ?_⟩
  exact overflow_entry_dropped cwOne 10 1 50 [] entryLong [] 4
    (by decide) (by decide) (by decide) (by decide)

/-- JavaScript whitespace (for `String.prototype.trim`). -/
def isJsSpace (c : Nat) : Bool :=
  decide ((9 ≤ c ∧ c ≤ 13) ∨ c = 32 ∨ c = 160 ∨ c = 5760 ∨ (8192 ≤ c ∧ c ≤ 8202) ∨
    c = 8232 ∨ c = 8233 ∨ c = 8239 ∨ c = 8287 ∨ c = 12288 ∨ c = 65279)

/-- JavaScript `text.trim()`. -/
def jsTrim (s : List Nat) : List Nat :=
  ((s.dropWhile (fun c => isJsSpace c)).reverse.dropWhile (fun c => isJsSpace c)).reverse

/-- Insertion-ordered map lookup (JavaScript `Map.get`). -/
def alLookup {β : Type} : List (List Nat × β) → List Nat → Option β
  | [], _ => none
  | (k, v) :: rest, key => if k = key then some v else alLookup rest key

/-- Insertion-ordered map update (JavaScript `Map.set`): replace in place
if the key exists, append otherwise. -/
def alSet {β : Type} : List (List Nat × β) → List Nat → β → List (List Nat × β)
  | [], key, v => [(key, v)]
  | (k, w) :: rest, key, v =>
    if k = key then (k, v) :: rest else (k, w) :: alSet rest key v

/-- Insertion-ordered map removal (JavaScript `Map.delete`). -/
def alRemove {β : Type} : List (List Nat × β) → List Nat → List (List Nat × β)
  | [], _ => []
  | (k, w) :: rest, key => if k = key then rest else (k, w) :: alRemove rest key

/-- In-place update of the arena cell at index `idx` (mutation of a shared
`entry.ref` object). -/
def updateAt {α : Type} (f : α → α) : List α → Nat → List α
  | [], _ => []
  | x :: rest, 0 => f x :: rest
  | x :: rest, n + 1 => x :: updateAt f rest n

/-- The buffer capacity (`messageBufferSize` in the source). -/
def messageBufferSize : Nat := 100

/-- Trim of the message buffer: `if (length > size) slice(-size)`. -/
def trimBuffer (buf : List Nat) : List Nat :=
  if buf.length > messageBufferSize then buf.drop (buf.length - messageBufferSize) else buf

/-- Decimal digits of a natural number, as code units. -/
def natStr (n : Nat) : List Nat := (Nat.toDigits 10 n).map Char.toNat

/-- Cost table row (`LlmCost` in `llm-cost.ts`; absent optional fields are
`none`; platforms are abstract numeric tags). -/
structure LlmCost where
  platform : Nat
  model : List Nat
  thinking : Option Bool
  input : Rat
  cachedInput : Option Rat
  cacheCreation : Option Rat
  output : Rat
  imageOutput : Option Rat
  deriving DecidableEq

/-- The llm-response event payload (`LlmResponseBase`). -/
structure LlmResponse where
  platform : Nat
  model : List Nat
  thinking : Bool
  inputTokens : Nat
  outputTokens : Nat
  cachedInputTokens : Nat
  cacheCreationTokens : Nat
  imageOutputTokens : Nat
  deriving DecidableEq

/-- JavaScript `s.startsWith(p)`: `beginsWith s p`. -/
def beginsWith : List Nat → List Nat → Bool
  | _, [] => true
  | [], _ :: _ => false
  | s :: ss, p :: ps => s = p && beginsWith ss ps

/-- The `LlmCosts.find(...)` of `getLlmCost`: first row whose platform
matches, whose model name is a prefix of the response's model, and whose
`thinking` field, when set to true, requires a thinking response. -/
def costMatches (c : LlmCost) (r : LlmResponse) : Bool :=
  decide (c.platform = r.platform) && beginsWith r.model c.model &&
    (match c.thinking with | some true => r.thinking | _ => true)

def findCostConfig (r : LlmResponse) : List LlmCost → Option LlmCost
  | [] => none
  | c :: rest => if costMatches c r then some c else findCostConfig r rest

/-- Cost of one LLM response in dollars (`getLlmCost` in `llm-cost.ts`),
`none` when no cost row matches. -/
def getLlmCost (costs : List LlmCost) (r : LlmResponse) : Option Rat :=
  match findCostConfig r costs with
  | none => none
  | some c =>
    let s1 : Rat × Rat :=
      match c.cachedInput with
      | some ci =>
        if ci ≠ 0 ∧ r.cachedInputTokens ≠ 0 then
          (ci * r.cachedInputTokens, (r.inputTokens : Rat) - (r.cachedInputTokens : Rat))
        else (0, (r.inputTokens : Rat))
      | none => (0, (r.inputTokens : Rat))
    let s2 : Rat × Rat :=
      match c.cacheCreation with
      | some cc =>
        if cc ≠ 0 ∧ r.cacheCreationTokens ≠ 0 then
          (s1.1 + cc * r.cacheCreationTokens, s1.2 - (r.cacheCreationTokens : Rat))
        else s1
      | none => s1
    let inputCost := (s2.1 + c.input * s2.2) / 1000000
    let o1 : Rat × Rat :=
      match c.imageOutput with
      | some io =>
        if io ≠ 0 ∧ r.imageOutputTokens ≠ 0 then
          ((r.outputTokens : Rat) - (r.imageOutputTokens : Rat),
           io * r.imageOutputTokens / 1000000)
        else ((r.outputTokens : Rat), 0)
      | none => ((r.outputTokens : Rat), 0)
    let outputCost := o1.2 + c.output * o1.1 / 1000000
    some (inputCost + outputCost)

/-- A tool-call argument value: a string, or anything else with its
`String(v)` rendering. -/
inductive ArgValue where
  | strVal (s : List Nat)
  | otherVal (shown : List Nat)
  deriving DecidableEq

/-- Tool call payload (`LlmToolCall`); `arguments` is `none` when absent
or not an object. -/
structure LlmToolCall where
  name : List Nat
  arguments : Option (List (List Nat × ArgValue))
  deriving DecidableEq

/-- Per-agent inspector record's per-target memory block. -/
structure EntityMem where
  targetName : List Nat
  memories : List (List Nat)
  deriving DecidableEq

/-- Per-agent inspector record (an element of `agentInfos`). -/
structure AgentInfo where
  id : Nat
  name : List Nat
  memories : List (List Nat)
  summary : List Nat
  canvases : List (List Nat × List Nat)
  entityMemories : List EntityMem
  deriving DecidableEq

/-- The three panes (`viewMode` values: chat = Transcript, canvas =
Document, agents = Inspector). -/
inductive ViewMode where
  | chat | canvas | agents
  deriving DecidableEq

/-- Keyboard inputs relevant to the state machine; `control` stands for
any other control key name. -/
inductive Key where
  | ctrlC | enter | tab | shiftTab | left | right | up | down | pageUp | pageDown
  | backspace | char (c : Nat) | control
  deriving DecidableEq

/-- The mutable state of `TerminalUI`. `store` is the arena of every
message object ever created; `messageBuffer` and `streamingMessages` hold
indices into it (shared-`ref` aliasing). -/
structure UIState where
  isRunning : Bool
  thinkingAgentName : Option (List Nat)
  executingGimmicks : List (List Nat × List Nat)
  store : List MsgEntry
  messageBuffer : List Nat
  streamingMessages : List (List Nat × Nat)
  streamRedrawPending : Bool
  currentUserInput : List Nat
  viewMode : ViewMode
  canvasData : List (List Nat × List Nat)
  selectedCanvasIndex : Nat
  canvasScrollOffset : Int
  agentInfos : List AgentInfo
  selectedAgentIndex : Nat
  agentScrollOffset : Int
  messageAreaHeight : Nat
  totalInputTokens : Nat
  totalOutputTokens : Nat
  cumulativeCost : Rat
  deriving DecidableEq

/-- The buffer contents as entries (dereferencing the arena indices). -/
def resolveBuffer (s : UIState) : List MsgEntry :=
  s.messageBuffer.filterMap (fun i => s.store.get? i)

/-- Push a fresh message object and its buffer reference
(`messageBuffer.push(obj)`). -/
def pushEntry (s : UIState) (e : MsgEntry) : UIState :=
  { s with store := s.store ++ [e],
           messageBuffer := s.messageBuffer ++ [s.store.length] }

/-- The `while (remaining.length > 0)` hard-wrapping loop of the canvas
and agents views: repeatedly truncate to the width budget and keep the
remainder, with explicit fuel (`truncateTextToWidth` can return an empty
piece and an unchanged remainder, looping forever). -/
def hardWrapGo (cw : Nat → Nat) (w : Int) :
    Nat → List Nat → Option (List (List Nat))
  | fuel, remaining =>
    match remaining with
    | [] => some []
    | c :: rest =>
      match fuel with
      | 0 => none
      | fuel + 1 =>
        let p := truncateTextToWidth cw (c :: rest) w
        match hardWrapGo cw w fuel p.2 with
        | none => none
        | some ls => some (p.1 :: ls)

/-- Wrapping of raw pane lines at width `term.width - 2` (shared by
`redrawCanvasView` and `redrawAgentsView`): empty lines stay, fitting
lines stay, long lines are hard-wrapped. -/
def wrapPaneLines (cw : Nat → Nat) (tw fuel : Nat) : List (List Nat) → Option (List (List Nat))
  | [] => some []
  | raw :: rest =>
    let head : Option (List (List Nat)) :=
      if raw = [] then some [[]]
      else if (textWidth cw raw : Int) ≤ (tw : Int) - 2 then some [raw]
      else hardWrapGo cw ((tw : Int) - 2) fuel raw
    match head, wrapPaneLines cw tw fuel rest with
    | some a, some b => some (a ++ b)
    | _, _ => none

/-- One numbered memory item of the agents view: `lead ++ "N. "` before
the first line, matching spaces before continuation lines. -/
def memoryItemLines (lead : List Nat) (idx : Nat) (mem : List Nat) : List (List Nat) :=
  let pre := lead ++ natStr (idx + 1) ++ str ". "
  match splitLines mem with
  | [] => []
  | first :: rest => (pre ++ first) :: rest.map (fun l => List.replicate pre.length 32 ++ l)

/-- All numbered memory items starting at index `idx`. -/
def memoriesGo (lead : List Nat) (idx : Nat) : List (List Nat) → List (List Nat)
  | [] => []
  | m :: rest => memoryItemLines lead idx m ++ memoriesGo lead (idx + 1) rest

/-- Entity-memory blocks of the agents view. -/
def entityMemLines : List EntityMem → List (List Nat)
  | [] => []
  | em :: rest =>
    (str "  @ " ++ em.targetName) :: memoriesGo (str "  ") 0 em.memories ++ entityMemLines rest

/-- Canvas blocks of the agents view. -/
def agentCanvasLines : List (List Nat × List Nat) → List (List Nat)
  | [] => []
  | (nm, text) :: rest =>
    (str "[" ++ nm ++ str "]") ::
      (if text ≠ [] then splitLines text else [str "(empty)"]) ++ [[]] ++ agentCanvasLines rest

/-- Total entity-memory count shown in the section header. -/
def totalEntityMems : List EntityMem → Nat
  | [] => 0
  | em :: rest => em.memories.length + totalEntityMems rest

/-- The raw content lines of the agents (inspector) view for one agent
(`buildAgentContentLines` in the source). -/
def buildAgentContentLines (a : AgentInfo) : List (List Nat) :=
  [str "SUMMARY", List.replicate 40 9472] ++
  (if a.summary ≠ [] then splitLines a.summary else [str "(no summary)"]) ++
  [[]] ++
  [str "MEMORIES (" ++ natStr a.memories.length ++ str ")", List.replicate 40 9472] ++
  (if a.memories = [] then [str "(no memories)"] else memoriesGo [] 0 a.memories) ++
  [[]] ++
  [str "ENTITY MEMORIES (" ++ natStr (totalEntityMems a.entityMemories) ++ str ")",
   List.replicate 40 9472] ++
  (if a.entityMemories = [] then [str "(no entity memories)"]
   else entityMemLines a.entityMemories) ++
  [[]] ++
  [str "CANVASES (" ++ natStr a.canvases.length ++ str ")", List.replicate 40 9472] ++
  (if a.canvases = [] then [str "(no canvases)"] else agentCanvasLines a.canvases)

/-- Names of the canvas tabs, in insertion order. -/
def canvasNames (s : UIState) : List (List Nat) := s.canvasData.map (fun kv => kv.1)

/-- State effect of `redrawCanvasView`: everything it does is paint,
except the scroll-offset clamp, which only runs when a canvas tab is
selected and its content is non-empty; `none` models a run whose
hard-wrapping loop never terminates. -/
def canvasContent (s : UIState) : List Nat :=
  (alLookup s.canvasData ((canvasNames s).getD s.selectedCanvasIndex [])).getD []

/-- Upper clamp bound for a pane scroll offset: the wrapped line count
minus the content height `messageAreaHeight - 2`, floored at 0. -/
def paneMaxOffset (s : UIState) (wl : List (List Nat)) : Int :=
  max 0 ((wl.length : Int) - ((s.messageAreaHeight : Int) - 2))

def redrawCanvasEffect (cw : Nat → Nat) (tw fuel : Nat) (s : UIState) : Option UIState :=
  if (canvasNames s).length = 0 ∨ (canvasNames s).length ≤ s.selectedCanvasIndex then some s
  else if canvasContent s = [] then some s
  else
    match wrapPaneLines cw tw fuel (splitLines (canvasContent s)) with
    | none => none
    | some wl =>
      some (if s.canvasScrollOffset > paneMaxOffset s wl
            then { s with canvasScrollOffset := paneMaxOffset s wl } else s)

/-- State effect of `redrawAgentsView`: the scroll-offset clamp, run only
when an agent tab is selected. -/
def selectedAgent (s : UIState) : Option AgentInfo :=
  s.agentInfos.get? s.selectedAgentIndex

def redrawAgentsEffect (cw : Nat → Nat) (tw fuel : Nat) (s : UIState) : Option UIState :=
  if s.agentInfos.length = 0 ∨ s.agentInfos.length ≤ s.selectedAgentIndex then some s
  else
    match selectedAgent s with
    | none => some s
    | some agent =>
      match wrapPaneLines cw tw fuel (buildAgentContentLines agent) with
      | none => none
      | some wl =>
        some (if s.agentScrollOffset > paneMaxOffset s wl
              then { s with agentScrollOffset := paneMaxOffset s wl } else s)

/-- State effect of `redrawUI`: no-op unless the active pane's redraw
clamps its scroll offset. -/
def redrawUIEffect (cw : Nat → Nat) (tw fuel : Nat) (s : UIState) : Option UIState :=
  if ¬s.isRunning then some s
  else
    match s.viewMode with
    | ViewMode.chat => some s
    | ViewMode.canvas => redrawCanvasEffect cw tw fuel s
    | ViewMode.agents => redrawAgentsEffect cw tw fuel s

/-- The `addMessage` handler: gated on the running flag, push, trim to
capacity, full redraw. -/
def addMessage (cw : Nat → Nat) (tw fuel : Nat) (s : UIState) (name message : List Nat) :
    Option UIState :=
  if ¬s.isRunning then some s
  else
    let s1 := pushEntry s ⟨name, message, false⟩
    redrawUIEffect cw tw fuel { s1 with messageBuffer := trimBuffer s1.messageBuffer }

/-- Tool calls never surfaced as transcript actions (`HIDDEN_ACTIONS`). -/
def hiddenActions : List (List Nat) :=
  [str "send_message", str "send_casual_message", str "send_agent_message"]

/-- One argument value as shown in an action summary: strings longer than
30 code units keep their first 30 followed by `...`; other values show
their `String(v)` rendering. -/
def formatArgVal : ArgValue → List Nat
  | ArgValue.strVal v => if v.length > 30 then v.take 30 ++ str "..." else v
  | ArgValue.otherVal r => r

/-- JavaScript `parts.join(sep)`. -/
def joinSep (sep : List Nat) : List (List Nat) → List Nat
  | [] => []
  | [x] => x
  | x :: rest => x ++ sep ++ joinSep sep rest

/-- The `k: v` list of the first three arguments, comma-joined. -/
def actionBrief (args : List (List Nat × ArgValue)) : List Nat :=
  joinSep (str ", ") ((args.take 3).map (fun kv => kv.1 ++ str ": " ++ formatArgVal kv.2))

/-- The collapsed action summary: tool name, plus a parenthesised brief
when any argument is shown. -/
def actionSummary (tc : LlmToolCall) : List Nat :=
  match tc.arguments with
  | none => tc.name
  | some args =>
    let brief := actionBrief args
    if brief = [] then tc.name else tc.name ++ str "(" ++ brief ++ str ")"

/-- The `addAction` handler: gated on the running flag, hidden tool names
do nothing, otherwise push one Action entry with the brief summary, trim,
full redraw. -/
def addAction (cw : Nat → Nat) (tw fuel : Nat) (s : UIState) (agentName : List Nat)
    (tc : LlmToolCall) : Option UIState :=
  if ¬s.isRunning then some s
  else if tc.name ∈ hiddenActions then some s
  else
    let s1 := pushEntry s ⟨agentName, actionSummary tc, true⟩
    redrawUIEffect cw tw fuel { s1 with messageBuffer := trimBuffer s1.messageBuffer }

/-- The `handleStreamDelta` handler: gated on the running flag; an
unknown speaker first clears its thinking indicator, pushes an empty
entry (trimming to capacity) and registers a handle; then the delta is
appended in place to the shared entry and a throttled redraw is
scheduled. -/
def handleStreamDelta (s : UIState) (agentName delta : List Nat) : UIState :=
  if ¬s.isRunning then s
  else
    match alLookup s.streamingMessages agentName with
    | some idx =>
      { s with store := updateAt (fun e => { e with message := e.message ++ delta }) s.store idx,
               streamRedrawPending := true }
    | none =>
      let s1 := if s.thinkingAgentName = some agentName
                then { s with thinkingAgentName := none } else s
      let idx := s1.store.length
      let s2 := pushEntry s1 ⟨agentName, [], false⟩
      let s3 := { s2 with messageBuffer := trimBuffer s2.messageBuffer,
                          streamingMessages := s2.streamingMessages ++ [(agentName, idx)] }
      { s3 with store := updateAt (fun e => { e with message := e.message ++ delta }) s3.store idx,
                streamRedrawPending := true }

/-- The `finalizeStreamingMessage` handler (NOT gated on the running
flag): with a live handle, overwrite the shared entry's body with the
final text, drop the handle, schedule a redraw and return true; with no
handle return false and change nothing. -/
def finalizeStreamingMessage (s : UIState) (name finalMessage : List Nat) : Bool × UIState :=
  match alLookup s.streamingMessages name with
  | none => (false, s)
  | some idx =>
    (true,
     { s with store := updateAt (fun e => { e with message := finalMessage }) s.store idx,
              streamingMessages := alRemove s.streamingMessages name,
              streamRedrawPending := true })

/-- The `startThinking` handler (gated on the running flag). -/
def startThinking (s : UIState) (agentName : List Nat) : UIState :=
  if ¬s.isRunning then s else { s with thinkingAgentName := some agentName }

/-- The `stopThinking` handler (NOT gated on the running flag). -/
def stopThinking (s : UIState) : UIState :=
  { s with thinkingAgentName := none }

/-- The `startGimmickExecution` handler (gated on the running flag). -/
def startGimmickExecution (s : UIState) (key nm : List Nat) : UIState :=
  if ¬s.isRunning then s
  else { s with executingGimmicks := alSet s.executingGimmicks key nm }

/-- The `stopGimmickExecution` handler (NOT gated on the running flag). -/
def stopGimmickExecution (s : UIState) (key : List Nat) : UIState :=
  { s with executingGimmicks := alRemove s.executingGimmicks key }

/-- The `handleLlmResponse` handler: gated on the running flag; token
counters always accumulate, the cost only when the table lookup finds a
row. -/
def handleLlmResponse (costs : List LlmCost) (r : LlmResponse) (s : UIState) : UIState :=
  if ¬s.isRunning then s
  else
    let s1 := { s with totalInputTokens := s.totalInputTokens + r.inputTokens,
                       totalOutputTokens := s.totalOutputTokens + r.outputTokens }
    match getLlmCost costs r with
    | none => s1
    | some cost => { s1 with cumulativeCost := s1.cumulativeCost + cost }

/-- State effect of `submitInput`: trim the pending input, clear the
input line, and when non-empty push the message — with NO capacity trim
(`submitInput` is the one push site without one). -/
def submitInput (userName : List Nat) (s : UIState) : UIState :=
  let submittedText := jsTrim s.currentUserInput
  let s1 := { s with currentUserInput := [] }
  if submittedText = [] then s1
  else pushEntry s1 ⟨userName, submittedText, false⟩

/-- State effect of `shutdown`: set the running flag to false. -/
def shutdownState (s : UIState) : UIState :=
  if ¬s.isRunning then s else { s with isRunning := false }

/-- The `updateCanvas` handler (no running-flag gate; the redraw it
triggers in canvas mode has one). -/
def updateCanvas (cw : Nat → Nat) (tw fuel : Nat) (s : UIState)
    (canvasName content : List Nat) : Option UIState :=
  let s1 := { s with canvasData := alSet s.canvasData canvasName content }
  if s1.viewMode = ViewMode.canvas then redrawUIEffect cw tw fuel s1 else some s1

/-- Forward pane cycling (`modes[(idx + 1) % 3]`). -/
def nextViewMode : ViewMode → ViewMode
  | ViewMode.chat => ViewMode.canvas
  | ViewMode.canvas => ViewMode.agents
  | ViewMode.agents => ViewMode.chat

/-- Backward pane cycling (`modes[(idx - 1 + 3) % 3]`). -/
def prevViewMode : ViewMode → ViewMode
  | ViewMode.chat => ViewMode.agents
  | ViewMode.canvas => ViewMode.chat
  | ViewMode.agents => ViewMode.canvas

/-- Agents-pane branch of `handleKeyInput` for the navigation keys. -/
def agentsPaneKey (cw : Nat → Nat) (tw fuel : Nat) (k : Key) (s : UIState) : Option UIState :=
  match k with
  | Key.left | Key.right =>
    if s.agentInfos.length > 0 then
      let dir : Int := if k = Key.left then -1 else 1
      let len : Int := s.agentInfos.length
      let idx := ((s.selectedAgentIndex : Int) + dir + len) % len
      redrawUIEffect cw tw fuel { s with selectedAgentIndex := idx.toNat, agentScrollOffset := 0 }
    else some s
  | Key.up =>
    if s.agentScrollOffset > 0 then
      redrawUIEffect cw tw fuel { s with agentScrollOffset := s.agentScrollOffset - 1 }
    else some s
  | Key.down => redrawUIEffect cw tw fuel { s with agentScrollOffset := s.agentScrollOffset + 1 }
  | Key.pageUp =>
    redrawUIEffect cw tw fuel
      { s with agentScrollOffset := max 0 (s.agentScrollOffset - ((s.messageAreaHeight : Int) - 2)) }
  | Key.pageDown =>
    redrawUIEffect cw tw fuel
      { s with agentScrollOffset := s.agentScrollOffset + ((s.messageAreaHeight : Int) - 2) }
  | _ => some s

/-- Canvas-pane branch of `handleKeyInput` for the navigation keys. -/
def canvasPaneKey (cw : Nat → Nat) (tw fuel : Nat) (k : Key) (s : UIState) : Option UIState :=
  match k with
  | Key.left | Key.right =>
    if (canvasNames s).length > 0 then
      let dir : Int := if k = Key.left then -1 else 1
      let len : Int := (canvasNames s).length
      let idx := ((s.selectedCanvasIndex : Int) + dir + len) % len
      redrawUIEffect cw tw fuel { s with selectedCanvasIndex := idx.toNat, canvasScrollOffset := 0 }
    else some s
  | Key.up =>
    if s.canvasScrollOffset > 0 then
      redrawUIEffect cw tw fuel { s with canvasScrollOffset := s.canvasScrollOffset - 1 }
    else some s
  | Key.down => redrawUIEffect cw tw fuel { s with canvasScrollOffset := s.canvasScrollOffset + 1 }
  | Key.pageUp =>
    redrawUIEffect cw tw fuel
      { s with canvasScrollOffset := max 0 (s.canvasScrollOffset - ((s.messageAreaHeight : Int) - 2)) }
  | Key.pageDown =>
    redrawUIEffect cw tw fuel
      { s with canvasScrollOffset := s.canvasScrollOffset + ((s.messageAreaHeight : Int) - 2) }
  | _ => some s

/-- The `handleKeyInput` handler: no-op when not running; ctrl+c shuts
down, enter submits, tab / shift-tab cycle panes (resetting both scroll
offsets and fully redrawing), the navigation keys act on the active
non-chat pane, backspace edits the input, a printable character is
appended when it fits the input line, other control keys do nothing. -/
def handleKeyInput (cw : Nat → Nat) (tw : Nat) (userName : List Nat) (fuel : Nat)
    (k : Key) (s : UIState) : Option UIState :=
  if ¬s.isRunning then some s
  else
    match k with
    | Key.ctrlC => some (shutdownState s)
    | Key.enter => some (submitInput userName s)
    | Key.tab =>
      redrawUIEffect cw tw fuel
        { s with viewMode := nextViewMode s.viewMode,
                 canvasScrollOffset := 0, agentScrollOffset := 0 }
    | Key.shiftTab =>
      redrawUIEffect cw tw fuel
        { s with viewMode := prevViewMode s.viewMode,
                 canvasScrollOffset := 0, agentScrollOffset := 0 }
    | Key.left | Key.right | Key.up | Key.down | Key.pageUp | Key.pageDown =>
      if s.viewMode = ViewMode.agents then agentsPaneKey cw tw fuel k s
      else if s.viewMode = ViewMode.canvas then canvasPaneKey cw tw fuel k s
      else some s
    | Key.backspace =>
      some (if s.currentUserInput.length > 0
            then { s with currentUserInput := s.currentUserInput.dropLast } else s)
    | Key.control => some s
    | Key.char c =>
      if c < 32 then some s
      else
        let inputStartX := textWidth cw userName + 3
        let maxInputWidth : Int := (tw : Int) - inputStartX - 1
        if (textWidth cw (s.currentUserInput ++ [c]) : Int) ≤ maxInputWidth then
          some { s with currentUserInput := s.currentUserInput ++ [c] }
        else some s

/-- Every external event the embedded handlers react to. -/
inductive UIEvent where
  | key (k : Key)
  | message (name body : List Nat)
  | action (agentName : List Nat) (tc : LlmToolCall)
  | delta (agentName fragment : List Nat)
  | finalizeEv (name finalBody : List Nat)
  | thinkStart (agentName : List Nat)
  | thinkStop
  | gimmickStart (key nm : List Nat)
  | gimmickStop (key : List Nat)
  | llm (r : LlmResponse)
  | canvasUpd (name content : List Nat)
  | shutdownReq

/-- One event dispatched to its handler. -/
def stepEvent (cw : Nat → Nat) (tw fuel : Nat) (userName : List Nat) (costs : List LlmCost) :
    UIEvent → UIState → Option UIState
  | UIEvent.key k, s => handleKeyInput cw tw userName fuel k s
  | UIEvent.message n m, s => addMessage cw tw fuel s n m
  | UIEvent.action n tc, s => addAction cw tw fuel s n tc
  | UIEvent.delta n d, s => some (handleStreamDelta s n d)
  | UIEvent.finalizeEv n m, s => some (finalizeStreamingMessage s n m).2
  | UIEvent.thinkStart n, s => some (startThinking s n)
  | UIEvent.thinkStop, s => some (stopThinking s)
  | UIEvent.gimmickStart k nm, s => some (startGimmickExecution s k nm)
  | UIEvent.gimmickStop k, s => some (stopGimmickExecution s k)
  | UIEvent.llm r, s => some (handleLlmResponse costs r s)
  | UIEvent.canvasUpd n c, s => updateCanvas cw tw fuel s n c
  | UIEvent.shutdownReq, s => some (shutdownState s)

/-- A state equal to `s` except possibly in the two scroll offsets (the
only fields a redraw can touch, via the clamps). -/
def EqExceptScroll (s t : UIState) : Prop :=
  t = { s with canvasScrollOffset := t.canvasScrollOffset,
               agentScrollOffset := t.agentScrollOffset }

theorem eqExceptScroll_refl (s : UIState) : EqExceptScroll s s := rfl

theorem redrawCanvasEffect_eq (cw : Nat → Nat) (tw fuel : Nat) (s t : UIState)
    (h : redrawCanvasEffect cw tw fuel s = some t) : EqExceptScroll s t := by
  unfold redrawCanvasEffect at h
  split at h
  · cases h; rfl
  · split at h
    · cases h; rfl
    · split at h
      · exact absurd h (by simp)
      · rw [Option.some_inj] at h
        subst h
        split
        · rfl
        · rfl

theorem redrawAgentsEffect_eq (cw : Nat → Nat) (tw fuel : Nat) (s t : UIState)
    (h : redrawAgentsEffect cw tw fuel s = some t) : EqExceptScroll s t := by
  unfold redrawAgentsEffect at h
  split at h
  · cases h; rfl
  · split at h
    · cases h; rfl
    · split at h
      · exact absurd h (by simp)
      · rw [Option.some_inj] at h
        subst h
        split
        · rfl
        · rfl

theorem redrawUIEffect_eq (cw : Nat → Nat) (tw fuel : Nat) (s t : UIState)
    (h : redrawUIEffect cw tw fuel s = some t) : EqExceptScroll s t := by
  unfold redrawUIEffect at h
  split at h
  · cases h; rfl
  · split at h
    · cases h; rfl
    · exact redrawCanvasEffect_eq cw tw fuel s t h
    · exact redrawAgentsEffect_eq cw tw fuel s t h

theorem EqExceptScroll.buffer {s t : UIState} (h : EqExceptScroll s t) :
    t.messageBuffer = s.messageBuffer := by rw [h]

theorem EqExceptScroll.store {s t : UIState} (h : EqExceptScroll s t) :
    t.store = s.store := by rw [h]

theorem EqExceptScroll.tokens {s t : UIState} (h : EqExceptScroll s t) :
    t.totalInputTokens = s.totalInputTokens ∧ t.totalOutputTokens = s.totalOutputTokens := by
  rw [h]; exact ⟨rfl, rfl⟩

theorem EqExceptScroll.running {s t : UIState} (h : EqExceptScroll s t) :
    t.isRunning = s.isRunning := by rw [h]

theorem EqExceptScroll.mode {s t : UIState} (h : EqExceptScroll s t) :
    t.viewMode = s.viewMode := by rw [h]

theorem get?_updateAt {α : Type} (f : α → α) :
    ∀ (l : List α) (i : Nat), (updateAt f l i).get? i = (l.get? i).map f := by
  intro l
  induction l with
  | nil => intro i; simp [updateAt]
  | cons x rest ih =>
    intro i
    match i with
    | 0 => simp [updateAt]
    | i + 1 => simpa [updateAt] using ih i

/-- The state right after construction: running, chat pane, everything
empty (message area height as set by a 12-row terminal). -/
def initState : UIState :=
  { isRunning := true, thinkingAgentName := none, executingGimmicks := [],
    store := [], messageBuffer := [], streamingMessages := [],
    streamRedrawPending := false, currentUserInput := [],
    viewMode := ViewMode.chat, canvasData := [], selectedCanvasIndex := 0,
    canvasScrollOffset := 0, agentInfos := [], selectedAgentIndex := 0,
    agentScrollOffset := 0, messageAreaHeight := 10,
    totalInputTokens := 0, totalOutputTokens := 0, cumulativeCost := 0 }

/-- The C3 scenario: two deltas for speaker A, then finalize with a
different authoritative body. -/
def streamScenario : Bool × UIState :=
  finalizeStreamingMessage
    (handleStreamDelta (handleStreamDelta initState (str "A") (str "he")) (str "A") (str "llo"))
    (str "A") (str "hello world")

/-- C3. Finalizing with an active streaming handle overwrites the shared
entry's body with the final text verbatim (whatever deltas accumulated),
removes the handle, returns true, and leaves the buffer's reference list
untouched; finalizing with no handle returns false and leaves the state
exactly unchanged. In particular the delta/delta/finalize scenario from a
fresh state yields exactly one entry for A with body "hello world". -/
theorem finalize_stream_spec :
    (∀ (s : UIState) (name final : List Nat) (idx : Nat),
      alLookup s.streamingMessages name = some idx →
      (finalizeStreamingMessage s name final).1 = true ∧
      (finalizeStreamingMessage s name final).2.messageBuffer = s.messageBuffer ∧
      (finalizeStreamingMessage s name final).2.store.get? idx =
        (s.store.get? idx).map (fun e => { e with message := final }) ∧
      (finalizeStreamingMessage s name final).2.streamingMessages =
        alRemove s.streamingMessages name) ∧
    (∀ (s : UIState) (name final : List Nat),
      alLookup s.streamingMessages name = none →
      finalizeStreamingMessage s name final = (false, s)) ∧
    (streamScenario.1 = true ∧
     resolveBuffer streamScenario.2 = [⟨str "A", str "hello world", false⟩] ∧
     alLookup streamScenario.2.streamingMessages (str "A") = none) := by
  refine ⟨?_, ?_, by decide, by decide, by decide⟩
  · intro s name final idx h
    unfold finalizeStreamingMessage
    rw [h]
    exact ⟨rfl, rfl, get?_updateAt _ s.store idx, rfl⟩
  · intro s name final h
    unfold finalizeStreamingMessage
    rw [h]

/-- State with one live streaming handle for A over a one-entry buffer. -/
def sStreaming : UIState :=
  { initState with store := [⟨str "A", str "he", false⟩],
                   messageBuffer := [0],
                   streamingMessages := [(str "A", 0)] }

/-- Witness for C3 at concrete states: finalize succeeds and overwrites
with a live handle, and fails leaving the state unchanged without one. -/
theorem finalize_stream_spec_witness :
    ((finalizeStreamingMessage sStreaming (str "A") (str "bye")).1 = true ∧
     (finalizeStreamingMessage sStreaming (str "A") (str "bye")).2.store.get? 0 =
       (sStreaming.store.get? 0).map (fun e => { e with message := str "bye" })) ∧
    finalizeStreamingMessage initState (str "A") (str "hi") = (false, initState) := by
  refine ⟨⟨?_, ?_⟩, ?_⟩
  · exact (finalize_stream_spec.1 sStreaming (str "A") (str "bye") 0 (by decide)).1
  · exact (finalize_stream_spec.1 sStreaming (str "A") (str "bye") 0 (by decide)).2.2.1
  · exact finalize_stream_spec.2.1 initState (str "A") (str "hi") (by decide)

/-- C7 (amended). After shutdown clears the running flag, the handlers
that check it first — key input, message append, action append, stream
delta, thinking-start, gimmick-start and LLM accounting — are no-ops;
but `finalizeStreamingMessage`, `stopThinking` and `stopGimmickExecution`
do NOT check the flag: finalize still overwrites and removes a live
handle (returning true), stop-thinking still clears the indicator, and
gimmick-stop still removes its key. -/
theorem shutdown_noop (cw : Nat → Nat) (tw fuel : Nat) (un : List Nat)
    (costs : List LlmCost) (s : UIState) (k : Key) (n m d key nm : List Nat)
    (tc : LlmToolCall) (r : LlmResponse)
    (h : s.isRunning = false) :
    handleKeyInput cw tw un fuel k s = some s ∧
    addMessage cw tw fuel s n m = some s ∧
    addAction cw tw fuel s n tc = some s ∧
    handleStreamDelta s n d = s ∧
    startThinking s n = s ∧
    startGimmickExecution s key nm = s ∧
    handleLlmResponse costs r s = s ∧
    stopThinking s = { s with thinkingAgentName := none } ∧
    stopGimmickExecution s key = { s with executingGimmicks := alRemove s.executingGimmicks key } ∧
    (finalizeStreamingMessage s n m).1 = (alLookup s.streamingMessages n).isSome := by
  refine ⟨?_, ?_, ?_, ?_, ?_, ?_, ?_, rfl, rfl, ?_⟩
  · unfold handleKeyInput; rw [h]; rfl
  · unfold addMessage; rw [h]; rfl
  · unfold addAction; rw [h]; rfl
  · unfold handleStreamDelta; rw [h]; rfl
  · unfold startThinking; rw [h]; rfl
  · unfold startGimmickExecution; rw [h]; rfl
  · unfold handleLlmResponse; rw [h]; rfl
  · unfold finalizeStreamingMessage
    cases halt : alLookup s.streamingMessages n <;> simp [halt]

/-- A stopped state that still shows a thinking indicator. -/
def sStopped : UIState :=
  { initState with isRunning := false, thinkingAgentName := some (str "A") }

/-- C7, as stated, is false: after shutdown, `stopThinking` still mutates
the state (it clears the thinking indicator without checking the running
flag), so not every handler is a no-op once the flag is false. -/
theorem shutdown_noop_counterexample :
    sStopped.isRunning = false ∧ stopThinking sStopped ≠ sStopped := ⟨by decide, by decide⟩

/-- Witness for C7 (amended) at a concrete stopped state. -/
theorem shutdown_noop_witness :
    addMessage cwOne 80 5 sStopped (str "B") (str "m") = some sStopped ∧
    handleStreamDelta sStopped (str "B") (str "d") = sStopped := by
  have hthm := shutdown_noop cwOne 80 5 (str "U") [] sStopped Key.tab (str "B") (str "m")
    (str "d") (str "k") (str "g") ⟨str "t", none⟩
    ⟨0, [], false, 0, 0, 0, 0, 0⟩ rfl
  exact ⟨hthm.2.1, hthm.2.2.2.1⟩

theorem tab_mode (cw : Nat → Nat) (tw fuel : Nat) (un : List Nat) (s s' : UIState)
    (hrun : s.isRunning = true)
    (h : handleKeyInput cw tw un fuel Key.tab s = some s') :
    s'.viewMode = nextViewMode s.viewMode ∧ s'.isRunning = true := by
  unfold handleKeyInput at h
  rw [if_neg (show ¬¬(s.isRunning = true) by simp [hrun])] at h
  have he := redrawUIEffect_eq _ _ _ _ _ h
  exact ⟨he.mode, by rw [he.running]; exact hrun⟩

/-- C6 (amended). A next-pane input moves the active pane one step
forward through the fixed order chat (Transcript) → canvas (Document) →
agents (Inspector) with wraparound, and starting from the Transcript pane
THREE consecutive next-pane inputs (one full cycle over the three panes)
return the view to the Transcript pane — four inputs land on Document. -/
theorem pane_cycle (cw : Nat → Nat) (tw fuel : Nat) (un : List Nat) (s s1 s2 s3 : UIState)
    (hrun : s.isRunning = true)
    (h1 : handleKeyInput cw tw un fuel Key.tab s = some s1) :
    s1.viewMode = nextViewMode s.viewMode ∧
    (s.viewMode = ViewMode.chat →
      handleKeyInput cw tw un fuel Key.tab s1 = some s2 →
      handleKeyInput cw tw un fuel Key.tab s2 = some s3 →
      s1.viewMode = ViewMode.canvas ∧ s2.viewMode = ViewMode.agents ∧
      s3.viewMode = ViewMode.chat) := by
  obtain ⟨hm1, hr1⟩ := tab_mode cw tw fuel un s s1 hrun h1
  refine ⟨hm1, fun hchat h2 h3 => ?_⟩
  obtain ⟨hm2, hr2⟩ := tab_mode cw tw fuel un s1 s2 hr1 h2
  obtain ⟨hm3, _⟩ := tab_mode cw tw fuel un s2 s3 hr2 h3
  rw [hchat] at hm1
  rw [hm1] at hm2
  rw [hm2] at hm3
  exact ⟨hm1, hm2, hm3⟩

/-- One TAB keypress at the witness geometry. -/
def tabStep (s : UIState) : Option UIState :=
  handleKeyInput cwOne 80 (str "U") 10 Key.tab s

/-- Four consecutive TAB keypresses from the initial state. -/
def tab4 : Option UIState := do
  let s1 ← tabStep initState
  let s2 ← tabStep s1
  let s3 ← tabStep s2
  tabStep s3

/-- C6, as stated, is false: from the Transcript (chat) pane, four
consecutive next-pane inputs land on the Document (canvas) pane, not back
on Transcript — the cycle has length three, not four. -/
theorem pane_four_tabs_counterexample :
    tab4.map (fun t => t.viewMode) = some ViewMode.canvas ∧
    ViewMode.canvas ≠ ViewMode.chat := ⟨by decide, by decide⟩

/-- Witness for C6 (amended): three TABs from the initial chat state
return to chat. -/
theorem pane_cycle_witness :
    ∃ s1 s2 s3, tabStep initState = some s1 ∧ tabStep s1 = some s2 ∧
      tabStep s2 = some s3 ∧ s3.viewMode = ViewMode.chat := by
  refine ⟨{ initState with viewMode := ViewMode.canvas },
          { initState with viewMode := ViewMode.agents }, initState,
          by decide, by decide, by decide, ?_⟩
  exact (pane_cycle cwOne 80 10 (str "U") initState
    { initState with viewMode := ViewMode.canvas }
    { initState with viewMode := ViewMode.agents } initState rfl (by decide)).2
    rfl (by decide) (by decide) |>.2.2

theorem actionBrief_take (args : List (List Nat × ArgValue)) :
    actionBrief (args.take 3) = actionBrief args := by
  unfold actionBrief
  rw [List.take_take]
  norm_num

/-- C10. With the UI running, `addAction` for a hidden tool name
(`send_message`, `send_casual_message`, `send_agent_message`) leaves the
state exactly unchanged; for any other tool call it appends exactly one
Action entry carrying the brief summary (and trims the buffer to
capacity); the summary is built from at most the first 3 arguments, and a
string argument longer than 30 code units is truncated to its first 30
followed by "...". -/
theorem addAction_spec (cw : Nat → Nat) (tw fuel : Nat) (s : UIState) (n : List Nat)
    (tc : LlmToolCall) (s' : UIState)
    (hrun : s.isRunning = true)
    (h : addAction cw tw fuel s n tc = some s') :
    (tc.name ∈ hiddenActions → s' = s) ∧
    (tc.name ∉ hiddenActions →
      s'.store = s.store ++ [⟨n, actionSummary tc, true⟩] ∧
      s'.messageBuffer = trimBuffer (s.messageBuffer ++ [s.store.length])) ∧
    (∀ args, tc.arguments = some args →
      actionSummary tc = actionSummary ⟨tc.name, some (args.take 3)⟩) ∧
    (∀ v : List Nat, v.length > 30 →
      formatArgVal (ArgValue.strVal v) = v.take 30 ++ str "...") := by
  unfold addAction at h
  rw [if_neg (show ¬¬(s.isRunning = true) by simp [hrun])] at h
  refine ⟨?_, ?_, ?_, ?_⟩
  · intro hmem
    rw [if_pos hmem] at h
    injection h with h2
    exact h2.symm
  · intro hmem
    rw [if_neg hmem] at h
    have he := redrawUIEffect_eq _ _ _ _ _ h
    exact ⟨he.store, he.buffer⟩
  · intro args harg
    obtain ⟨nm, argsOpt⟩ := tc
    simp only at harg
    subst harg
    simp only [actionSummary]
    rw [actionBrief_take]
  · intro v hv
    simp [formatArgVal, hv]

/-- A sample tool call with four arguments. -/
def tcEx : LlmToolCall :=
  ⟨str "use_tool", some [(str "a", ArgValue.strVal (str "x")),
    (str "b", ArgValue.otherVal (str "1")), (str "c", ArgValue.strVal (str "y")),
    (str "d", ArgValue.strVal (str "dropped"))]⟩

/-- Witness for C10 at a concrete call: the action entry is appended with
its summary, and an over-long string argument is truncated. -/
theorem addAction_spec_witness :
    (addAction cwOne 80 5 initState (str "Bot") tcEx =
      some { initState with store := [⟨str "Bot", actionSummary tcEx, true⟩],
                            messageBuffer := [0] }) ∧
    actionSummary tcEx = actionSummary ⟨tcEx.name, some ((tcEx.arguments.getD []).take 3)⟩ ∧
    formatArgVal (ArgValue.strVal (List.replicate 31 97)) =
      (List.replicate 31 97).take 30 ++ str "..." := by
  refine ⟨by decide, ?_, ?_⟩
  · exact (addAction_spec cwOne 80 5 initState (str "Bot") tcEx
      { initState with store := [⟨str "Bot", actionSummary tcEx, true⟩],
                       messageBuffer := [0] } rfl (by decide)).2.2.1
      (tcEx.arguments.getD []) rfl
  · exact (addAction_spec cwOne 80 5 initState (str "Bot") tcEx
      { initState with store := [⟨str "Bot", actionSummary tcEx, true⟩],
                       messageBuffer := [0] } rfl (by decide)).2.2.2
      (List.replicate 31 97) (by decide)

theorem trimBuffer_length (buf : List Nat) :
    (trimBuffer buf).length = min buf.length messageBufferSize := by
  unfold trimBuffer
  split
  · simp only [List.length_drop]
    omega
  · omega

/-- C4 (amended). The three event-driven append paths — `addMessage`,
`addAction` and stream-delta entry creation — trim the buffer to the most
recent `messageBufferSize = 100` references (dropping the oldest,
preserving relative order, never exceeding 100); the user-submit path
(`submitInput`, reached from the enter key) appends WITHOUT trimming, so
a submit into a full buffer leaves 101 entries until the next trimming
append. -/
theorem buffer_trim_amended (cw : Nat → Nat) (tw fuel : Nat) (un : List Nat) :
    (∀ (s : UIState) (n m : List Nat) (s' : UIState), s.isRunning = true →
      addMessage cw tw fuel s n m = some s' →
      s'.messageBuffer = trimBuffer (s.messageBuffer ++ [s.store.length])) ∧
    (∀ (s : UIState) (n : List Nat) (tc : LlmToolCall) (s' : UIState), s.isRunning = true →
      tc.name ∉ hiddenActions →
      addAction cw tw fuel s n tc = some s' →
      s'.messageBuffer = trimBuffer (s.messageBuffer ++ [s.store.length])) ∧
    (∀ (s : UIState) (n d : List Nat), s.isRunning = true →
      alLookup s.streamingMessages n = none →
      (handleStreamDelta s n d).messageBuffer =
        trimBuffer (s.messageBuffer ++ [s.store.length])) ∧
    (∀ (s : UIState) (n d : List Nat) (idx : Nat), s.isRunning = true →
      alLookup s.streamingMessages n = some idx →
      (handleStreamDelta s n d).messageBuffer = s.messageBuffer) ∧
    (∀ (s s' : UIState), s.isRunning = true →
      jsTrim s.currentUserInput ≠ [] →
      handleKeyInput cw tw un fuel Key.enter s = some s' →
      s'.messageBuffer = s.messageBuffer ++ [s.store.length]) ∧
    (∀ buf : List Nat, (trimBuffer buf).length = min buf.length messageBufferSize) := by
  refine ⟨?_, ?_, ?_, ?_, ?_, trimBuffer_length⟩
  · intro s n m s' hrun h
    unfold addMessage at h
    rw [if_neg (show ¬¬(s.isRunning = true) by simp [hrun])] at h
    exact (redrawUIEffect_eq _ _ _ _ _ h).buffer
  · intro s n tc s' hrun hmem h
    unfold addAction at h
    rw [if_neg (show ¬¬(s.isRunning = true) by simp [hrun]), if_neg hmem] at h
    exact (redrawUIEffect_eq _ _ _ _ _ h).buffer
  · intro s n d hrun hlook
    unfold handleStreamDelta
    rw [if_neg (show ¬¬(s.isRunning = true) by simp [hrun]), hlook]
    by_cases ht : s.thinkingAgentName = some n <;> simp [ht, pushEntry]
  · intro s n d idx hrun hlook
    unfold handleStreamDelta
    rw [if_neg (show ¬¬(s.isRunning = true) by simp [hrun]), hlook]
  · intro s s' hrun htrim h
    unfold handleKeyInput at h
    rw [if_neg (show ¬¬(s.isRunning = true) by simp [hrun])] at h
    injection h with h2
    subst h2
    unfold submitInput
    dsimp only
    rw [if_neg htrim]
    simp [pushEntry]

/-- A running chat state whose buffer is exactly at capacity, with
pending input. -/
def sFull : UIState :=
  { initState with store := List.replicate 100 ⟨str "B", str "x", false⟩,
                   messageBuffer := List.range 100,
                   currentUserInput := str "hi" }

/-- C4, as stated, is false: submitting user input with the buffer at its
100-entry capacity leaves 101 entries — `submitInput` pushes without
trimming, so the oldest entry is not dropped on this append path. -/
theorem submit_trim_counterexample :
    sFull.messageBuffer.length = 100 ∧
    (handleKeyInput cwOne 80 (str "User") 10 Key.enter sFull).map
      (fun t => t.messageBuffer.length) = some 101 := ⟨by decide, by decide⟩

/-- The state after submitting from the full buffer. -/
def sFullAfter : UIState :=
  { sFull with
      currentUserInput := [],
      store := sFull.store ++ [⟨str "User", str "hi", false⟩],
      messageBuffer := sFull.messageBuffer ++ [100] }

/-- Witness for C4 (amended) at concrete states: a trimming append at
capacity keeps 100 references dropping the oldest, and the enter-key path
grows the buffer to 101. -/
theorem buffer_trim_amended_witness :
    ((handleStreamDelta { sFull with currentUserInput := [] } (str "A") (str "d")).messageBuffer =
      trimBuffer (sFull.messageBuffer ++ [(100 : Nat)])) ∧
    (∃ s', handleKeyInput cwOne 80 (str "User") 10 Key.enter sFull = some s' ∧
      s'.messageBuffer = sFull.messageBuffer ++ [(100 : Nat)]) := by
  constructor
  · exact (buffer_trim_amended cwOne 80 10 (str "User")).2.2.1
      { sFull with currentUserInput := [] } (str "A") (str "d") rfl (by decide)
  · refine ⟨sFullAfter, by decide, ?_⟩
    exact (buffer_trim_amended cwOne 80 10 (str "User")).2.2.2.2.1 sFull sFullAfter rfl
      (by decide) (by decide)

theorem redraw_tokens {cw : Nat → Nat} {tw fuel : Nat} {t s' : UIState}
    (h : redrawUIEffect cw tw fuel t = some s') {a b : Nat}
    (ha : t.totalInputTokens = a) (hb : t.totalOutputTokens = b) :
    s'.totalInputTokens = a ∧ s'.totalOutputTokens = b := by
  obtain ⟨h1, h2⟩ := (redrawUIEffect_eq cw tw fuel t s' h).tokens
  exact ⟨h1.trans ha, h2.trans hb⟩

theorem agentsPaneKey_tokens (cw : Nat → Nat) (tw fuel : Nat) (k : Key) (s s' : UIState)
    (h : agentsPaneKey cw tw fuel k s = some s') :
    s'.totalInputTokens = s.totalInputTokens ∧ s'.totalOutputTokens = s.totalOutputTokens := by
  cases k <;> simp only [agentsPaneKey] at h
  all_goals try (injection h with h2; subst h2; exact ⟨rfl, rfl⟩)
  all_goals try exact redraw_tokens h rfl rfl
  all_goals split at h
  all_goals try exact redraw_tokens h rfl rfl
  all_goals (injection h with h2; subst h2; exact ⟨rfl, rfl⟩)

theorem canvasPaneKey_tokens (cw : Nat → Nat) (tw fuel : Nat) (k : Key) (s s' : UIState)
    (h : canvasPaneKey cw tw fuel k s = some s') :
    s'.totalInputTokens = s.totalInputTokens ∧ s'.totalOutputTokens = s.totalOutputTokens := by
  cases k <;> simp only [canvasPaneKey] at h
  all_goals try (injection h with h2; subst h2; exact ⟨rfl, rfl⟩)
  all_goals try exact redraw_tokens h rfl rfl
  all_goals split at h
  all_goals try exact redraw_tokens h rfl rfl
  all_goals (injection h with h2; subst h2; exact ⟨rfl, rfl⟩)

theorem handleKeyInput_tokens (cw : Nat → Nat) (tw : Nat) (un : List Nat) (fuel : Nat)
    (k : Key) (s s' : UIState)
    (h : handleKeyInput cw tw un fuel k s = some s') :
    s'.totalInputTokens = s.totalInputTokens ∧ s'.totalOutputTokens = s.totalOutputTokens := by
  unfold handleKeyInput at h
  split at h
  · injection h with h2; subst h2; exact ⟨rfl, rfl⟩
  · cases k <;> try dsimp only at h
    all_goals try (injection h with h2; subst h2)
    all_goals try exact ⟨rfl, rfl⟩
    all_goals try (unfold shutdownState; split <;> exact ⟨rfl, rfl⟩)
    all_goals try (unfold submitInput; dsimp only; split <;> exact ⟨rfl, rfl⟩)
    all_goals try (split <;> exact ⟨rfl, rfl⟩)
    all_goals try exact redraw_tokens h rfl rfl
    all_goals split at h
    all_goals try (injection h with h2; subst h2; exact ⟨rfl, rfl⟩)
    all_goals try exact agentsPaneKey_tokens _ _ _ _ _ _ h
    all_goals split at h
    all_goals try (injection h with h2; subst h2; exact ⟨rfl, rfl⟩)
    all_goals exact canvasPaneKey_tokens _ _ _ _ _ _ h

theorem step_tokens_mono (cw : Nat → Nat) (tw fuel : Nat) (un : List Nat)
    (costs : List LlmCost) (e : UIEvent) (s s' : UIState)
    (h : stepEvent cw tw fuel un costs e s = some s') :
    s.totalInputTokens ≤ s'.totalInputTokens ∧
    s.totalOutputTokens ≤ s'.totalOutputTokens := by
  cases e <;> simp only [stepEvent] at h
  case key k =>
    have := handleKeyInput_tokens cw tw un fuel k s s' h
    omega
  case message n m =>
    unfold addMessage at h
    split at h
    · injection h with h2; subst h2; exact ⟨le_refl _, le_refl _⟩
    · exact ⟨le_of_eq (redraw_tokens h rfl rfl).1.symm,
        le_of_eq (redraw_tokens h rfl rfl).2.symm⟩
  case action n tc =>
    unfold addAction at h
    split at h
    · injection h with h2; subst h2; exact ⟨le_refl _, le_refl _⟩
    · split at h
      · injection h with h2; subst h2; exact ⟨le_refl _, le_refl _⟩
      · exact ⟨le_of_eq (redraw_tokens h rfl rfl).1.symm,
          le_of_eq (redraw_tokens h rfl rfl).2.symm⟩
  case delta n d =>
    injection h with h2
    subst h2
    unfold handleStreamDelta
    split
    · exact ⟨le_refl _, le_refl _⟩
    · split
      · exact ⟨le_refl _, le_refl _⟩
      · by_cases ht : s.thinkingAgentName = some n <;> simp [ht, pushEntry]
  case finalizeEv n m =>
    injection h with h2
    subst h2
    unfold finalizeStreamingMessage
    split
    · exact ⟨le_refl _, le_refl _⟩
    · exact ⟨le_refl _, le_refl _⟩
  case thinkStart n =>
    injection h with h2
    subst h2
    unfold startThinking
    split <;> exact ⟨le_refl _, le_refl _⟩
  case thinkStop =>
    injection h with h2
    subst h2
    exact ⟨le_refl _, le_refl _⟩
  case gimmickStart k nm =>
    injection h with h2
    subst h2
    unfold startGimmickExecution
    split <;> exact ⟨le_refl _, le_refl _⟩
  case gimmickStop k =>
    injection h with h2
    subst h2
    exact ⟨le_refl _, le_refl _⟩
  case llm r =>
    injection h with h2
    subst h2
    unfold handleLlmResponse
    split
    · exact ⟨le_refl _, le_refl _⟩
    · dsimp only
      split <;> exact ⟨Nat.le_add_right _ _, Nat.le_add_right _ _⟩
  case canvasUpd n c =>
    unfold updateCanvas at h
    dsimp only at h
    split at h
    · exact ⟨le_of_eq (redraw_tokens h rfl rfl).1.symm,
        le_of_eq (redraw_tokens h rfl rfl).2.symm⟩
    · injection h with h2; subst h2; exact ⟨le_refl _, le_refl _⟩
  case shutdownReq =>
    injection h with h2
    subst h2
    unfold shutdownState
    split <;> exact ⟨le_refl _, le_refl _⟩

/-- C9. With the UI running, each llm-response event adds the response's
input and output token counts to the corresponding totals; when the cost
table lookup finds no matching row (`getLlmCost = none`), the cumulative
cost is left unchanged while the token counters still accumulate; and no
event the embedded handlers react to ever decreases either token total,
so the counters never reset for the life of the process. -/
theorem llm_counters (cw : Nat → Nat) (tw fuel : Nat) (un : List Nat)
    (costs : List LlmCost) :
    (∀ (r : LlmResponse) (s : UIState), s.isRunning = true →
      (handleLlmResponse costs r s).totalInputTokens = s.totalInputTokens + r.inputTokens ∧
      (handleLlmResponse costs r s).totalOutputTokens = s.totalOutputTokens + r.outputTokens) ∧
    (∀ (r : LlmResponse) (s : UIState), getLlmCost costs r = none →
      (handleLlmResponse costs r s).cumulativeCost = s.cumulativeCost) ∧
    (∀ (e : UIEvent) (s s' : UIState),
      stepEvent cw tw fuel un costs e s = some s' →
      s.totalInputTokens ≤ s'.totalInputTokens ∧
      s.totalOutputTokens ≤ s'.totalOutputTokens) := by
  refine ⟨?_, ?_, step_tokens_mono cw tw fuel un costs⟩
  · intro r s hrun
    unfold handleLlmResponse
    rw [if_neg (show ¬¬(s.isRunning = true) by simp [hrun])]
    dsimp only
    split <;> exact ⟨rfl, rfl⟩
  · intro r s hcost
    unfold handleLlmResponse
    rw [hcost]
    split <;> rfl

/-- A response of 5 input and 7 output tokens for an unknown model. -/
def rEx : LlmResponse := ⟨0, str "mystery-model", false, 5, 7, 0, 0, 0⟩

/-- Witness for C9 at a concrete state: with an empty cost table the
lookup misses, the cost is unchanged and the token totals still grow. -/
theorem llm_counters_witness :
    (handleLlmResponse [] rEx initState).totalInputTokens =
      initState.totalInputTokens + rEx.inputTokens ∧
    (handleLlmResponse [] rEx initState).cumulativeCost = initState.cumulativeCost := by
  constructor
  · exact ((llm_counters cwOne 80 5 (str "U") []).1 rEx initState rfl).1
  · exact (llm_counters cwOne 80 5 (str "U") []).2.1 rEx initState (by decide)

theorem redrawCanvasEffect_clamp (cw : Nat → Nat) (tw fuel : Nat) (t t' : UIState)
    (wl : List (List Nat))
    (hn : ¬((canvasNames t).length = 0 ∨ (canvasNames t).length ≤ t.selectedCanvasIndex))
    (hc : ¬(canvasContent t = []))
    (hw : wrapPaneLines cw tw fuel (splitLines (canvasContent t)) = some wl)
    (h : redrawCanvasEffect cw tw fuel t = some t') :
    t'.canvasScrollOffset = min t.canvasScrollOffset (paneMaxOffset t wl) := by
  unfold redrawCanvasEffect at h
  rw [if_neg hn, if_neg hc, hw] at h
  injection h with h2
  subst h2
  split
  · next hx => simp; omega
  · next hx => simp; omega

theorem redrawAgentsEffect_clamp (cw : Nat → Nat) (tw fuel : Nat) (t t' : UIState)
    (wl : List (List Nat)) (agent : AgentInfo)
    (hn : ¬(t.agentInfos.length = 0 ∨ t.agentInfos.length ≤ t.selectedAgentIndex))
    (hsel : selectedAgent t = some agent)
    (hw : wrapPaneLines cw tw fuel (buildAgentContentLines agent) = some wl)
    (h : redrawAgentsEffect cw tw fuel t = some t') :
    t'.agentScrollOffset = min t.agentScrollOffset (paneMaxOffset t wl) := by
  unfold redrawAgentsEffect at h
  rw [if_neg hn, hsel] at h
  dsimp only at h
  rw [hw] at h
  injection h with h2
  subst h2
  split
  · next hx => simp; omega
  · next hx => simp; omega

theorem handleKeyInput_scrollCanvas (cw : Nat → Nat) (tw : Nat) (un : List Nat) (fuel : Nat)
    (k : Key) (s : UIState)
    (hrun : s.isRunning = true)
    (hv : s.viewMode = ViewMode.canvas)
    (hk : k = Key.up ∨ k = Key.down ∨ k = Key.pageUp ∨ k = Key.pageDown) :
    handleKeyInput cw tw un fuel k s = canvasPaneKey cw tw fuel k s := by
  rcases hk with rfl | rfl | rfl | rfl <;> simp [handleKeyInput, hrun, hv]

theorem handleKeyInput_scrollAgents (cw : Nat → Nat) (tw : Nat) (un : List Nat) (fuel : Nat)
    (k : Key) (s : UIState)
    (hrun : s.isRunning = true)
    (hv : s.viewMode = ViewMode.agents)
    (hk : k = Key.up ∨ k = Key.down ∨ k = Key.pageUp ∨ k = Key.pageDown) :
    handleKeyInput cw tw un fuel k s = agentsPaneKey cw tw fuel k s := by
  rcases hk with rfl | rfl | rfl | rfl <;> simp [handleKeyInput, hrun, hv]

theorem redrawUIEffect_canvas (cw : Nat → Nat) (tw fuel : Nat) (t s' : UIState)
    (hrun : t.isRunning = true) (hv : t.viewMode = ViewMode.canvas)
    (h : redrawUIEffect cw tw fuel t = some s') :
    redrawCanvasEffect cw tw fuel t = some s' := by
  unfold redrawUIEffect at h
  rw [if_neg (show ¬¬(t.isRunning = true) by simp [hrun]), hv] at h
  exact h

theorem redrawUIEffect_agents (cw : Nat → Nat) (tw fuel : Nat) (t s' : UIState)
    (hrun : t.isRunning = true) (hv : t.viewMode = ViewMode.agents)
    (h : redrawUIEffect cw tw fuel t = some s') :
    redrawAgentsEffect cw tw fuel t = some s' := by
  unfold redrawUIEffect at h
  rw [if_neg (show ¬¬(t.isRunning = true) by simp [hrun]), hv] at h
  exact h

/-- C8 (amended). After a scroll input (up/down by one row, page up/down
by one page) in the Document (canvas) or Inspector (agents) pane, IF the
pane currently renders content — canvas: at least one canvas, selected
index in range, selected text non-empty; agents: at least one agent,
selected index in range — then the pane's scroll offset lies within
`[0, max 0 (contentLineCount - (messageAreaHeight - 2))]`, out-of-range
values being corrected to the nearest bound by the redraw clamp. When the
pane renders no content the clamp is skipped and the offset can exceed
the bound (see the counterexample). -/
theorem scroll_clamp (cw : Nat → Nat) (tw fuel : Nat) (un : List Nat)
    (s s' : UIState) (k : Key) (wl : List (List Nat)) (agent : AgentInfo)
    (hrun : s.isRunning = true)
    (hmah : 2 ≤ s.messageAreaHeight)
    (hk : k = Key.up ∨ k = Key.down ∨ k = Key.pageUp ∨ k = Key.pageDown)
    (h : handleKeyInput cw tw un fuel k s = some s') :
    (s.viewMode = ViewMode.canvas →
      0 ≤ s.canvasScrollOffset →
      ¬((canvasNames s).length = 0 ∨ (canvasNames s).length ≤ s.selectedCanvasIndex) →
      ¬(canvasContent s = []) →
      wrapPaneLines cw tw fuel (splitLines (canvasContent s)) = some wl →
      0 ≤ s'.canvasScrollOffset ∧ s'.canvasScrollOffset ≤ paneMaxOffset s wl) ∧
    (s.viewMode = ViewMode.agents →
      0 ≤ s.agentScrollOffset →
      ¬(s.agentInfos.length = 0 ∨ s.agentInfos.length ≤ s.selectedAgentIndex) →
      selectedAgent s = some agent →
      wrapPaneLines cw tw fuel (buildAgentContentLines agent) = some wl →
      0 ≤ s'.agentScrollOffset ∧ s'.agentScrollOffset ≤ paneMaxOffset s wl) := by
  have hmax0 : (0 : Int) ≤ paneMaxOffset s wl := le_max_left _ _
  have hpage : (0 : Int) ≤ (s.messageAreaHeight : Int) - 2 := by
    have : (2 : Int) ≤ (s.messageAreaHeight : Int) := by exact_mod_cast hmah
    omega
  constructor
  · intro hv hoff hn hc hw
    rw [handleKeyInput_scrollCanvas cw tw un fuel k s hrun hv hk] at h
    rcases hk with rfl | rfl | rfl | rfl
    · -- up
      simp only [canvasPaneKey] at h
      split at h
      · next hg =>
        have hcl := redrawCanvasEffect_clamp cw tw fuel
          { s with canvasScrollOffset := s.canvasScrollOffset - 1 } s' wl hn hc hw
          (redrawUIEffect_canvas _ _ _ _ _ hrun hv h)
        have hcl2 : s'.canvasScrollOffset =
            min (s.canvasScrollOffset - 1) (paneMaxOffset s wl) := hcl
        omega
      · next hg =>
        injection h with h2
        subst h2
        omega
    · -- down
      simp only [canvasPaneKey] at h
      have hcl := redrawCanvasEffect_clamp cw tw fuel
        { s with canvasScrollOffset := s.canvasScrollOffset + 1 } s' wl hn hc hw
        (redrawUIEffect_canvas _ _ _ _ _ hrun hv h)
      have hcl2 : s'.canvasScrollOffset =
          min (s.canvasScrollOffset + 1) (paneMaxOffset s wl) := hcl
      omega
    · -- page up
      simp only [canvasPaneKey] at h
      have hcl := redrawCanvasEffect_clamp cw tw fuel
        { s with canvasScrollOffset := max 0 (s.canvasScrollOffset - ((s.messageAreaHeight : Int) - 2)) } s' wl hn hc hw
        (redrawUIEffect_canvas _ _ _ _ _ hrun hv h)
      have hcl2 : s'.canvasScrollOffset =
          min (max 0 (s.canvasScrollOffset - ((s.messageAreaHeight : Int) - 2)))
            (paneMaxOffset s wl) := hcl
      omega
    · -- page down
      simp only [canvasPaneKey] at h
      have hcl := redrawCanvasEffect_clamp cw tw fuel
        { s with canvasScrollOffset := s.canvasScrollOffset + ((s.messageAreaHeight : Int) - 2) } s' wl hn hc hw
        (redrawUIEffect_canvas _ _ _ _ _ hrun hv h)
      have hcl2 : s'.canvasScrollOffset =
          min (s.canvasScrollOffset + ((s.messageAreaHeight : Int) - 2))
            (paneMaxOffset s wl) := hcl
      omega
  · intro hv hoff hn hsel hw
    rw [handleKeyInput_scrollAgents cw tw un fuel k s hrun hv hk] at h
    rcases hk with rfl | rfl | rfl | rfl
    · simp only [agentsPaneKey] at h
      split at h
      · next hg =>
        have hcl := redrawAgentsEffect_clamp cw tw fuel
          { s with agentScrollOffset := s.agentScrollOffset - 1 } s' wl agent hn hsel hw
          (redrawUIEffect_agents _ _ _ _ _ hrun hv h)
        have hcl2 : s'.agentScrollOffset =
            min (s.agentScrollOffset - 1) (paneMaxOffset s wl) := hcl
        omega
      · next hg =>
        injection h with h2
        subst h2
        omega
    · simp only [agentsPaneKey] at h
      have hcl := redrawAgentsEffect_clamp cw tw fuel
        { s with agentScrollOffset := s.agentScrollOffset + 1 } s' wl agent hn hsel hw
        (redrawUIEffect_agents _ _ _ _ _ hrun hv h)
      have hcl2 : s'.agentScrollOffset =
          min (s.agentScrollOffset + 1) (paneMaxOffset s wl) := hcl
      omega
    · simp only [agentsPaneKey] at h
      have hcl := redrawAgentsEffect_clamp cw tw fuel
        { s with agentScrollOffset := max 0 (s.agentScrollOffset - ((s.messageAreaHeight : Int) - 2)) } s' wl agent hn hsel hw
        (redrawUIEffect_agents _ _ _ _ _ hrun hv h)
      have hcl2 : s'.agentScrollOffset =
          min (max 0 (s.agentScrollOffset - ((s.messageAreaHeight : Int) - 2)))
            (paneMaxOffset s wl) := hcl
      omega
    · simp only [agentsPaneKey] at h
      have hcl := redrawAgentsEffect_clamp cw tw fuel
        { s with agentScrollOffset := s.agentScrollOffset + ((s.messageAreaHeight : Int) - 2) } s' wl agent hn hsel hw
        (redrawUIEffect_agents _ _ _ _ _ hrun hv h)
      have hcl2 : s'.agentScrollOffset =
          min (s.agentScrollOffset + ((s.messageAreaHeight : Int) - 2))
            (paneMaxOffset s wl) := hcl
      omega

/-- An agents (Inspector) pane with no agents loaded. -/
def sAgentsEmpty : UIState := { initState with viewMode := ViewMode.agents }

/-- C8, as stated, is false: in the Inspector pane with no agents loaded
(content line count 0, so the claimed range is [0, 0]), a single "down"
scroll input leaves the offset at 1 — `redrawAgentsView` returns before
its clamp when the pane has nothing to render, so the offset is not
corrected to the bound. -/
theorem scroll_clamp_counterexample :
    handleKeyInput cwOne 80 (str "U") 10 Key.down sAgentsEmpty =
      some { sAgentsEmpty with agentScrollOffset := 1 } ∧
    ¬((1 : Int) ≤ max 0 ((0 : Int) - ((10 : Int) - 2))) := ⟨by decide, by decide⟩

/-- A Document (canvas) pane with one non-empty canvas. -/
def sCanvas : UIState :=
  { initState with viewMode := ViewMode.canvas, canvasData := [(str "c", str "hello")] }

/-- Witness for C8 (amended): a "down" input on the single-canvas pane
ends clamped inside the bound (the content fits, so the bound is 0 and
the incremented offset is pulled back to it). -/
theorem scroll_clamp_witness :
    (0 : Int) ≤ sCanvas.canvasScrollOffset ∧
    sCanvas.canvasScrollOffset ≤ paneMaxOffset sCanvas [str "hello"] := by
  have hthm := scroll_clamp cwOne 80 10 (str "U") sCanvas sCanvas Key.down [str "hello"]
    ⟨0, [], [], [], [], []⟩ rfl (by decide) (Or.inr (Or.inl rfl)) (by decide)
  exact hthm.1 rfl (by decide) (by decide) (by decide) (by decide)
